import Mathlib

/-!
Verification development for the bob-bar multi-agent research orchestrator.

This file gives a shallow embedding, in Lean 4, of the parts of the Rust
source that the audited specification claims talk about:

* `src/tools.rs` — HTTP tool execution: parameter resolution and type
  coercion (`parse_value_by_type`), request building and the send step of
  `execute_http_tool`, and the status-code decision policy
  (`status_matches` / `status_in_list`).
* `src/shared_memory.rs` — the memory store: `store_memory`,
  `update_or_store_memory`, `get_by_type`, modelling the SQLite
  `memories` / `vec_memories` tables as lists of rows in rowid order.
* `src/ollama.rs` — the LM client's iterative tool-calling loop
  (`query_internal_with_iterations`) and the tool-catalog whitelist filter.
* `src/research.rs` — the supervisor loop's one-shot gap injection, the
  gap dispatch loop, and reference extraction (`extract_sources` /
  `add_sources_section`).

Modelling conventions:
* Machine integers become `Nat`/`Int` (with explicit bounds where the Rust
  code's parse functions check them); fallible calls become `Except`.
* Strings are processed through `String.toList` with structural
  (fuel-free or fueled, always reducible) primitives, so every definition
  evaluates on concrete inputs inside the kernel.
* SQLite tables are lists of rows in rowid order: a `SELECT` without
  `ORDER BY` over these tables scans in rowid (= insertion) order, an
  `INSERT` appends, an `UPDATE ... WHERE id = x` maps over rows.
* External effects that the claims do not constrain (floating-point
  parsing, serde JSON parsing, the JSON serializer, the embedding service,
  the model's replies) are passed in as explicit oracles/inputs.
-/

/-! ## Generic character-list utilities (ASCII models of the Rust str API) -/

/-- ASCII whitespace, modelling the whitespace class used by Rust's
`char::is_whitespace` and the regex class on the ASCII range. -/
def wsChar (c : Char) : Bool :=
  c = ' ' || c = '\t' || c = '\n' || c = '\r' || c = '\x0b' || c = '\x0c'

/-- ASCII decimal digit test (Rust `char::to_digit(10)` succeeds). -/
def isDigitCh (c : Char) : Bool := ('0' ≤ c) && (c ≤ '9')

/-- Value of an ASCII digit. -/
def digitVal (c : Char) : Nat := c.toNat - 48

/-- ASCII lowercase map, modelling `str::to_lowercase` on the ASCII range. -/
def asciiLower (c : Char) : Char :=
  if 'A' ≤ c && c ≤ 'Z' then Char.ofNat (c.toNat + 32) else c

/-- Lowercase a string (ASCII model of `str::to_lowercase`). -/
def lowerStr (s : String) : String := String.mk (s.toList.map asciiLower)

/-- Rust `str::trim` on a char list: strip leading and trailing whitespace. -/
def trimWs (cs : List Char) : List Char :=
  ((cs.dropWhile wsChar).reverse.dropWhile wsChar).reverse

/-- Rust `str::split(',')`: split at every comma, keeping empty pieces. -/
def splitComma : List Char → List (List Char)
  | [] => [[]]
  | c :: cs =>
    if c = ',' then [] :: splitComma cs
    else
      match splitComma cs with
      | h :: t => (c :: h) :: t
      | [] => [[c]]

/-- Parse a run of decimal digits, accumulating; `none` on any non-digit. -/
def parseNatCore : List Char → Nat → Option Nat
  | [], acc => some acc
  | c :: cs, acc =>
    if isDigitCh c then parseNatCore cs (acc * 10 + digitVal c) else none

/-- Rust `str::parse::<u16>()`: optional leading `+`, one or more digits,
value at most 65535. -/
def parseU16 (cs : List Char) : Option Nat :=
  let body := match cs with
    | '+' :: rest => rest
    | _ => cs
  match body with
  | [] => none
  | _ =>
    match parseNatCore body 0 with
    | some n => if n ≤ 65535 then some n else none
    | none => none

/-- Rust `str::parse::<i64>()`: optional sign, one or more digits, value in
the i64 range. -/
def parseI64 (s : String) : Option Int :=
  let cs := s.toList
  let (neg, body) : Bool × List Char := match cs with
    | '+' :: rest => (false, rest)
    | '-' :: rest => (true, rest)
    | _ => (false, cs)
  match body with
  | [] => none
  | _ =>
    match parseNatCore body 0 with
    | some n =>
      if neg then
        if (n : Int) ≤ 2 ^ 63 then some (-(n : Int)) else none
      else
        if (n : Int) ≤ 2 ^ 63 - 1 then some (n : Int) else none
    | none => none

/-! ## JSON values (`serde_json::Value`)

The `float` constructor carries the display string of a finite `f64`
(floating-point arithmetic itself is outside the embedding; no claim
depends on float values). -/

inductive JVal where
  | str (s : String)
  | int (n : Int)
  | float (repr : String)
  | bool (b : Bool)
  | arr (xs : List JVal)
  | obj (fields : List (String × JVal))
  | null

/-! ## C1 — `execute_http_tool`: request builder and send step
(src/tools.rs lines 679-756)

The request builder match constructs a builder for GET, POST, PUT, DELETE
and PATCH (anything else returns an "Unsupported HTTP method" error).
The send match then handles only GET (query string) and POST (JSON body),
with `_ => unreachable!()` — a panic — for the other three. -/

/-- The methods for which the first match in `execute_http_tool`
constructs a request builder instead of returning an error
(src/tools.rs lines 679-686). -/
def requestBuilderDefined (method : String) : Bool :=
  match method with
  | "GET" | "POST" | "PUT" | "DELETE" | "PATCH" => true
  | _ => false

/-- Outcome of the send match at src/tools.rs lines 728-756. -/
inductive HttpSendAction where
  | queryParams (ps : List (String × String))
  | jsonBody (ps : List (String × JVal))
  | panicUnreachable

/-- Stringify a `Value` for a query or path parameter
(src/tools.rs lines 733-738): strings as-is, numbers and bools via
`to_string`, everything else through the serde serializer (`ser`). -/
def jvalToParamString (ser : JVal → String) : JVal → String
  | .str s => s
  | .int n => toString n
  | .float r => r
  | .bool b => if b then "true" else "false"
  | v => ser v

/-- The send step of `execute_http_tool` (src/tools.rs lines 728-756):
GET sends the remaining parameters as a query string, POST as a JSON
body, and every other method falls into the `unreachable!()` arm. -/
def httpSendStep (ser : JVal → String) (method : String)
    (finalParams : List (String × JVal)) : HttpSendAction :=
  match method with
  | "GET" => .queryParams (finalParams.map (fun kv => (kv.1, jvalToParamString ser kv.2)))
  | "POST" => .jsonBody finalParams
  | _ => .panicUnreachable

/-- C1: the claim says the send step is defined (query string on GET, JSON
body on POST/PUT/PATCH) for every method for which a request builder was
constructed (GET, POST, PUT, DELETE, PATCH). In the code a builder is
constructed for all five methods, but the send match handles only GET and
POST; PUT, PATCH and DELETE reach the `unreachable!()` panic arm. This
theorem evaluates the embedded code at the failing inputs. -/
theorem c1_send_step_panics_for_put_delete_patch :
    requestBuilderDefined "PUT" = true ∧
    requestBuilderDefined "DELETE" = true ∧
    requestBuilderDefined "PATCH" = true ∧
    (∀ ser ps, httpSendStep ser "PUT" ps = HttpSendAction.panicUnreachable) ∧
    (∀ ser ps, httpSendStep ser "PATCH" ps = HttpSendAction.panicUnreachable) ∧
    (∀ ser ps, httpSendStep ser "DELETE" ps = HttpSendAction.panicUnreachable) ∧
    (∀ ser ps, httpSendStep ser "GET" ps =
      HttpSendAction.queryParams (ps.map (fun kv => (kv.1, jvalToParamString ser kv.2)))) ∧
    (∀ ser ps, httpSendStep ser "POST" ps = HttpSendAction.jsonBody ps) :=
  ⟨rfl, rfl, rfl, fun _ _ => rfl, fun _ _ => rfl, fun _ _ => rfl,
    fun _ _ => rfl, fun _ _ => rfl⟩

/-! ## C2 — HTTP status-code decision (src/tools.rs lines 71-93, 758-807) -/

/-- `status_matches` (src/tools.rs lines 71-88): exact-code parse first
(a successful `u16` parse decides the answer), else the `Nxx` family
wildcard (ends with "xx", byte length 3, leading decimal digit). -/
def statusMatches (statusCode : Nat) (pattern : String) : Bool :=
  let cs := pattern.toList
  match parseU16 cs with
  | some exact => statusCode == exact
  | none =>
    if ['x', 'x'].isSuffixOf cs && (cs.map Char.utf8Size).sum == 3 then
      match cs with
      | c :: _ => if isDigitCh c then statusCode / 100 == digitVal c else false
      | [] => false
    else false

/-- `status_in_list` (src/tools.rs lines 91-93). -/
def statusInList (statusCode : Nat) (patterns : List String) : Bool :=
  patterns.any (statusMatches statusCode)

/-- The three outcomes of `execute_http_tool` after the response status is
known: the ignored result `{status:"ignored", status_code}`, success
(body parsing / response_path extraction continues), or an error. -/
inductive HttpOutcome where
  | ignored (statusCode : Nat)
  | success
  | toolError
deriving DecidableEq

/-- The status decision of `execute_http_tool` (src/tools.rs lines
765-794): acceptable first; then `should_error` is membership in
`error_status` when that list is nonempty, and non-membership in
`expected_status` otherwise. -/
def statusDecision (acceptableStatus errorStatus expectedStatus : List String)
    (code : Nat) : HttpOutcome :=
  if statusInList code acceptableStatus then .ignored code
  else
    let isExpected := statusInList code expectedStatus
    let shouldError :=
      if !errorStatus.isEmpty then statusInList code errorStatus else !isExpected
    if shouldError then .toolError else .success

/-- The decision chain exactly as the claim words it: acceptable → ignored;
else if the error list is nonempty and the code matches it → error; else
if the code is not in the expected list → error; else success. -/
def claimedStatusDecision (acceptableStatus errorStatus expectedStatus : List String)
    (code : Nat) : HttpOutcome :=
  if statusInList code acceptableStatus then .ignored code
  else if !errorStatus.isEmpty && statusInList code errorStatus then .toolError
  else if !statusInList code expectedStatus then .toolError
  else .success

/-- The decision chain with the minimal amendment: when the error list is
nonempty it alone decides (the expected list is not consulted); the
expected rule is the default used only when the error list is empty. -/
def amendedStatusDecision (acceptableStatus errorStatus expectedStatus : List String)
    (code : Nat) : HttpOutcome :=
  if statusInList code acceptableStatus then .ignored code
  else if !errorStatus.isEmpty then
    (if statusInList code errorStatus then .toolError else .success)
  else
    (if statusInList code expectedStatus then .success else .toolError)

/-- C2 counterexample: with `acceptable = []`, `error = ["500"]`,
`expected = ["200"]` and response status 404, the code returns success
(the nonempty error list alone decides), while the claim's decision chain
returns an error because 404 is not in the expected list. -/
theorem c2_status_chain_counterexample :
    statusDecision [] ["500"] ["200"] 404 = HttpOutcome.success ∧
    claimedStatusDecision [] ["500"] ["200"] 404 = HttpOutcome.toolError := by
  exact ⟨rfl, rfl⟩

/-- C2 (amended): for every HTTP tool call exactly one of the three
outcomes is produced, the acceptable list is checked first, and the code's
decision equals the amended chain: when the error list is nonempty it
alone decides error vs success; the not-in-expected rule applies only when
the error list is empty. -/
theorem c2_status_policy_amended :
    ∀ (acceptableStatus errorStatus expectedStatus : List String) (code : Nat),
      statusDecision acceptableStatus errorStatus expectedStatus code =
        amendedStatusDecision acceptableStatus errorStatus expectedStatus code ∧
      (statusInList code acceptableStatus = true →
        statusDecision acceptableStatus errorStatus expectedStatus code =
          HttpOutcome.ignored code) ∧
      (statusDecision acceptableStatus errorStatus expectedStatus code =
          HttpOutcome.ignored code ∨
       statusDecision acceptableStatus errorStatus expectedStatus code =
          HttpOutcome.success ∨
       statusDecision acceptableStatus errorStatus expectedStatus code =
          HttpOutcome.toolError) := by
  intro acceptableStatus errorStatus expectedStatus code
  unfold statusDecision amendedStatusDecision
  by_cases hacc : statusInList code acceptableStatus
  · simp [hacc]
  · by_cases herr : errorStatus.isEmpty
    · by_cases hexp : statusInList code expectedStatus
      · simp [hacc, herr, hexp]
      · simp [hacc, herr, hexp]
    · by_cases hin : statusInList code errorStatus
      · simp [hacc, herr, hin]
      · simp [hacc, herr, hin]

/-- Witness for the acceptable-first hypothesis of the amended C2 theorem
at the spec's own scenario: `acceptable = ["404"]`, status 404. -/
theorem c2_status_policy_amended_witness :
    statusInList 404 ["404"] = true ∧
    statusDecision ["404"] ["5xx"] ["2xx", "3xx"] 404 = HttpOutcome.ignored 404 :=
  ⟨rfl, (c2_status_policy_amended ["404"] ["5xx"] ["2xx", "3xx"] 404).2.1 rfl⟩

/-! ## C10 — tool-catalog whitelist filter (src/ollama.rs lines 255-266) -/

/-- One entry of `get_tool_descriptions()`. -/
structure ToolDescription where
  name : String
  description : String

/-- The whitelist filter in `query_internal_with_iterations`
(src/ollama.rs lines 259-265): when `available_tools` is set and nonempty,
retain only tools whose name is in the list; an empty list means no
filtering. -/
def filterToolCatalog (availableTools : Option (List String))
    (tools : List ToolDescription) : List ToolDescription :=
  match availableTools with
  | some allowed =>
    if allowed.isEmpty then tools
    else tools.filter (fun t => allowed.contains t.name)
  | none => tools

/-- C10: with the whitelist set to the empty list no filtering happens —
the catalog equals the full list, exactly as when no whitelist is set;
the whitelist restricts the catalog only when it is nonempty. -/
theorem c10_empty_whitelist_fails_open :
    ∀ (tools : List ToolDescription) (a : String) (rest : List String),
      filterToolCatalog (some []) tools = tools ∧
      filterToolCatalog (some []) tools = filterToolCatalog none tools ∧
      filterToolCatalog (some (a :: rest)) tools =
        tools.filter (fun t => (a :: rest).contains t.name) := by
  intro tools a rest
  exact ⟨rfl, rfl, rfl⟩

/-! ## Shared memory model (src/shared_memory.rs)

The `memories` table is a list of rows in rowid order; `vec_memories` is a
parallel list. `INSERT` appends; the auto-generated rowid is the `nextId`
counter; `UPDATE ... WHERE id = x` maps over the rows; a `SELECT` without
`ORDER BY` scans in rowid order. The embedding service call is an explicit
`Except` input; embeddings themselves are an opaque type parameter `E`. -/

inductive MemoryType where
  | discovery
  | insight
  | deadend
  | queryResult
  | plan
  | feedback
  | context
deriving DecidableEq

/-- `MemoryType::as_str` (src/shared_memory.rs lines 38-48). -/
def MemoryType.asStr : MemoryType → String
  | .discovery => "discovery"
  | .insight => "insight"
  | .deadend => "deadend"
  | .queryResult => "query_result"
  | .plan => "plan"
  | .feedback => "feedback"
  | .context => "context"

/-- `MemoryType::from_str` (src/shared_memory.rs lines 50-61): lowercases
the input and matches the seven names. -/
def MemoryType.fromStr (s : String) : Option MemoryType :=
  match lowerStr s with
  | "discovery" => some .discovery
  | "insight" => some .insight
  | "deadend" => some .deadend
  | "query_result" => some .queryResult
  | "plan" => some .plan
  | "feedback" => some .feedback
  | "context" => some .context
  | _ => none

/-- A row of the `memories` table. `memoryType` holds the stored string
(what `as_str` produced at insert time); `metadata` is the JSON object the
serialized map round-trips to, as an association list. -/
structure MemRow where
  id : Nat
  memoryType : String
  content : String
  metadata : List (String × String)
  createdBy : String
  createdAt : Int
deriving DecidableEq

/-- A row of the `vec_memories` virtual table. -/
structure VecRow (E : Type) where
  memoryId : Nat
  embedding : E

/-- The database state: both tables plus the rowid counter. -/
structure MemDB (E : Type) where
  memories : List MemRow
  vecs : List (VecRow E)
  nextId : Nat

/-- The freshly created store (`memories` and `vec_memories` empty; SQLite
assigns rowid 1 to the first insert). -/
def emptyMemDB (E : Type) : MemDB E := ⟨[], [], 1⟩

/-- Association-list lookup, modelling `HashMap::get` on the metadata map
(and `json_extract(metadata, key)` on its serialization). -/
def assocGet : List (String × String) → String → Option String
  | [], _ => none
  | kv :: rest, key => if kv.1 = key then some kv.2 else assocGet rest key

/-- The `Memory` record returned by queries (src/shared_memory.rs lines
14-24; the embedding field is always `None` on the query paths). -/
structure MemoryRec where
  memoryType : MemoryType
  content : String
  metadata : List (String × String)
  createdBy : String
  createdAt : Int
deriving DecidableEq

/-- Reconstruct a `Memory` from a row (src/shared_memory.rs lines
477-494): `from_str` on the stored type string, defaulting to `Context`. -/
def rowToMemory (r : MemRow) : MemoryRec :=
  ⟨(MemoryType.fromStr r.memoryType).getD .context,
    r.content, r.metadata, r.createdBy, r.createdAt⟩

/-- `store_memory` (src/shared_memory.rs lines 229-282): generate the
embedding (failure returns the error with the state untouched), then under
one lock insert the memory row (rowid auto-assigned) and the embedding row
keyed by that rowid. -/
def storeMemory {E : Type} (db : MemDB E) (memoryType : MemoryType)
    (content createdBy : String) (metadata : List (String × String))
    (embResult : Except String E) (now : Int) :
    Except String Nat × MemDB E :=
  match embResult with
  | .error e => (.error e, db)
  | .ok emb =>
    let id := db.nextId
    (.ok id,
      { memories := db.memories ++ [⟨id, memoryType.asStr, content, metadata, createdBy, now⟩],
        vecs := db.vecs ++ [⟨id, emb⟩],
        nextId := id + 1 })

/-- The `SELECT id FROM memories WHERE memory_type = ?1 AND created_by =
?2 AND json_extract(metadata, q) = ?3 LIMIT 1` of
`update_or_store_memory` (src/shared_memory.rs lines 301-313): first
matching row in scan (rowid) order. -/
def findExistingId {E : Type} (db : MemDB E) (memoryType : MemoryType)
    (createdBy qid : String) : Option Nat :=
  (db.memories.find? (fun r =>
    r.memoryType == memoryType.asStr && r.createdBy == createdBy &&
    assocGet r.metadata "query_id" == some qid)).map (·.id)

/-- `update_or_store_memory` (src/shared_memory.rs lines 286-376): when
the new metadata has a `query_id` and a row with the same (type,
created_by, query_id) exists, overwrite that row's content, metadata,
created_at and its embedding row in place; otherwise store a new memory. -/
def updateOrStoreMemory {E : Type} (db : MemDB E) (memoryType : MemoryType)
    (content createdBy : String) (metadata : List (String × String))
    (embResult : Except String E) (now : Int) :
    Except String Nat × MemDB E :=
  match assocGet metadata "query_id" with
  | none => storeMemory db memoryType content createdBy metadata embResult now
  | some qid =>
    match findExistingId db memoryType createdBy qid with
    | none => storeMemory db memoryType content createdBy metadata embResult now
    | some id =>
      match embResult with
      | .error e => (.error e, db)
      | .ok emb =>
        (.ok id,
          { memories := db.memories.map (fun r =>
              if r.id = id then
                { r with content := content, metadata := metadata, createdAt := now }
              else r),
            vecs := db.vecs.map (fun v =>
              if v.memoryId = id then { v with embedding := emb } else v),
            nextId := db.nextId })

/-- `get_by_type` (src/shared_memory.rs lines 464-498):
`SELECT ... FROM memories WHERE memory_type = ?1`, scanned in rowid
order, each row reconstructed into a `Memory`. -/
def getByType {E : Type} (db : MemDB E) (memoryType : MemoryType) : List MemoryRec :=
  (db.memories.filter (fun r => r.memoryType == memoryType.asStr)).map rowToMemory

/-- One `store_memory` call with its inputs and the embedding-service
outcome for its content. -/
structure StoreCall (E : Type) where
  memoryType : MemoryType
  content : String
  createdBy : String
  metadata : List (String × String)
  embResult : Except String E
  now : Int

/-- Run a sequence of `store_memory` calls, threading the store state. -/
def applyStores {E : Type} (calls : List (StoreCall E)) (db : MemDB E) : MemDB E :=
  calls.foldl (fun d c =>
    (storeMemory d c.memoryType c.content c.createdBy c.metadata c.embResult c.now).2) db

/-- The `Memory` a successful `store_memory` call gives rise to. -/
def storeCallToMemory {E : Type} (c : StoreCall E) : MemoryRec :=
  ⟨c.memoryType, c.content, c.metadata, c.createdBy, c.now⟩

theorem MemoryType.fromStr_asStr (t : MemoryType) : MemoryType.fromStr t.asStr = some t := by
  cases t <;> rfl

theorem MemoryType.asStr_inj {t t' : MemoryType} (h : t.asStr = t'.asStr) : t = t' := by
  cases t <;> cases t' <;> first | rfl | exact absurd h (by decide)

theorem getByType_storeMemory {E : Type} (db : MemDB E) (c : StoreCall E) (t : MemoryType) :
    getByType (storeMemory db c.memoryType c.content c.createdBy c.metadata c.embResult c.now).2 t
      = getByType db t ++
        (if c.embResult.isOk && (c.memoryType == t) then [storeCallToMemory c] else []) := by
  rcases c with ⟨mt, content, createdBy, metadata, embResult, now⟩
  cases embResult with
  | error e => simp [storeMemory, Except.isOk, Except.toBool]
  | ok emb =>
    simp only [storeMemory, getByType, List.filter_append, List.map_append,
      Except.isOk, Except.toBool, Bool.true_and]
    by_cases h : mt = t
    · subst h
      simp [rowToMemory, MemoryType.fromStr_asStr, storeCallToMemory]
    · have hne : (mt.asStr == t.asStr) = false := by
        apply beq_eq_false_iff_ne.mpr
        intro hc
        exact h (MemoryType.asStr_inj hc)
      have hne' : (mt == t) = false := beq_eq_false_iff_ne.mpr h
      simp [hne, hne', List.filter]

/-- C3: after any sequence of `store_memory` calls starting from the empty
store, `get_by_type t` returns exactly the successfully stored memories
whose type is `t`, in insertion order (oldest first). -/
theorem c3_get_by_type_insertion_order :
    ∀ (E : Type) (calls : List (StoreCall E)) (t : MemoryType),
      getByType (applyStores calls (emptyMemDB E)) t
        = (calls.filter (fun c => c.embResult.isOk && (c.memoryType == t))).map
            storeCallToMemory := by
  intro E calls t
  suffices h : ∀ (db : MemDB E),
      getByType (applyStores calls db) t
        = getByType db t ++
          (calls.filter (fun c => c.embResult.isOk && (c.memoryType == t))).map
            storeCallToMemory by
    have := h (emptyMemDB E)
    simpa [getByType, emptyMemDB] using this
  induction calls with
  | nil => intro db; simp [applyStores]
  | cons c rest ih =>
    intro db
    have hstep := getByType_storeMemory db c t
    by_cases hc : (c.embResult.isOk && (c.memoryType == t)) = true
    · calc getByType (applyStores (c :: rest) db) t
          = getByType (storeMemory db c.memoryType c.content c.createdBy c.metadata c.embResult c.now).2 t
              ++ (rest.filter (fun c => c.embResult.isOk && (c.memoryType == t))).map
                  storeCallToMemory := by
            simpa [applyStores] using
              ih (storeMemory db c.memoryType c.content c.createdBy c.metadata c.embResult c.now).2
      _ = getByType db t ++ (((c :: rest).filter
              (fun c => c.embResult.isOk && (c.memoryType == t))).map storeCallToMemory) := by
            rw [hstep]
            simp [hc, List.filter_cons]
    · have hc' : (c.embResult.isOk && (c.memoryType == t)) = false := by
        simpa using hc
      calc getByType (applyStores (c :: rest) db) t
          = getByType (storeMemory db c.memoryType c.content c.createdBy c.metadata c.embResult c.now).2 t
              ++ (rest.filter (fun c => c.embResult.isOk && (c.memoryType == t))).map
                  storeCallToMemory := by
            simpa [applyStores] using
              ih (storeMemory db c.memoryType c.content c.createdBy c.metadata c.embResult c.now).2
      _ = getByType db t ++ (((c :: rest).filter
              (fun c => c.embResult.isOk && (c.memoryType == t))).map storeCallToMemory) := by
            rw [hstep]
            simp [hc', List.filter_cons]

/-! ## C5 — `store_memory` atomicity (src/shared_memory.rs lines 229-282) -/

/-- The memory-atomicity invariant: for every id, the number of `memories`
rows with that id equals the number of `vec_memories` rows keyed by it. -/
def pairedCounts {E : Type} (db : MemDB E) : Prop :=
  ∀ id : Nat,
    (db.memories.filter (fun r => r.id == id)).length =
    (db.vecs.filter (fun v => v.memoryId == id)).length

/-- C5: a successful `store_memory` call appends exactly one `memories`
row and one `vec_memories` row, both keyed by the assigned rowid, and
preserves the memory-atomicity invariant; an embedding-service failure
returns the error with neither table modified. -/
theorem c5_store_memory_atomicity :
    ∀ (E : Type) (db : MemDB E) (mt : MemoryType) (content createdBy : String)
      (metadata : List (String × String)) (embResult : Except String E) (now : Int),
      (∀ e, embResult = .error e →
        storeMemory db mt content createdBy metadata embResult now = (.error e, db)) ∧
      (∀ emb, embResult = .ok emb →
        (storeMemory db mt content createdBy metadata embResult now).1 = .ok db.nextId ∧
        (storeMemory db mt content createdBy metadata embResult now).2.memories =
          db.memories ++ [⟨db.nextId, mt.asStr, content, metadata, createdBy, now⟩] ∧
        (storeMemory db mt content createdBy metadata embResult now).2.vecs =
          db.vecs ++ [⟨db.nextId, emb⟩]) ∧
      (pairedCounts db →
        pairedCounts (storeMemory db mt content createdBy metadata embResult now).2) := by
  intro E db mt content createdBy metadata embResult now
  refine ⟨?_, ?_, ?_⟩
  · intro e he; subst he; rfl
  · intro emb he; subst he; exact ⟨rfl, rfl, rfl⟩
  · intro hpc
    cases embResult with
    | error e => exact hpc
    | ok emb =>
      intro id
      have h := hpc id
      simp only [storeMemory, List.filter_append, List.length_append]
      by_cases hid : db.nextId = id
      · simp [hid, h]
      · have h1 : (db.nextId == id) = false := by simpa using hid
        simp [List.filter, h1, h]

/-- Witness for C5 at a concrete store: success assigns rowid 1 and keeps
the tables paired; embedding failure leaves the empty store untouched. -/
theorem c5_store_memory_atomicity_witness :
    (storeMemory (emptyMemDB Unit) .discovery "finding" "worker_a" [] (.ok ()) 7).1 = .ok 1 ∧
    pairedCounts (storeMemory (emptyMemDB Unit) .discovery "finding" "worker_a" [] (.ok ()) 7).2 ∧
    storeMemory (emptyMemDB Unit) .discovery "finding" "worker_a" [] (.error "down") 7 =
      (.error "down", emptyMemDB Unit) := by
  refine ⟨((c5_store_memory_atomicity Unit (emptyMemDB Unit) .discovery "finding" "worker_a"
      [] (.ok ()) 7).2.1 () rfl).1, ?_, (c5_store_memory_atomicity Unit (emptyMemDB Unit)
      .discovery "finding" "worker_a" [] (.error "down") 7).1 "down" rfl⟩
  exact (c5_store_memory_atomicity Unit (emptyMemDB Unit) .discovery "finding" "worker_a"
      [] (.ok ()) 7).2.2 (fun id => rfl)

/-! ## C4 — `update_or_store_memory` and the supervisor-collapse invariant
(src/shared_memory.rs lines 286-376, src/research.rs lines 1141-1157) -/

/-- Well-formedness of the modelled store: rowids are distinct and below
the auto-increment counter. -/
def WFMemDB {E : Type} (db : MemDB E) : Prop :=
  (db.memories.map (fun r => r.id)).Nodup ∧ ∀ r ∈ db.memories, r.id < db.nextId

/-- Predicate picking the Feedback rows of one `(created_by, query_id)`
key, the shape of the supervisor-collapse invariant. -/
def supervisorFeedbackPred (createdBy qid : String) (r : MemRow) : Bool :=
  r.memoryType == MemoryType.feedback.asStr && r.createdBy == createdBy &&
  assocGet r.metadata "query_id" == some qid

/-- Number of Feedback rows for one `(created_by, query_id)` key. -/
def feedbackRowCount {E : Type} (db : MemDB E) (createdBy qid : String) : Nat :=
  db.memories.countP (supervisorFeedbackPred createdBy qid)

/-- Run a sequence of `update_or_store_memory` calls. -/
def applyUpdateOrStores {E : Type} (calls : List (StoreCall E)) (db : MemDB E) : MemDB E :=
  calls.foldl (fun d c =>
    (updateOrStoreMemory d c.memoryType c.content c.createdBy c.metadata c.embResult c.now).2) db

theorem wf_storeMemory {E : Type} (db : MemDB E) (mt : MemoryType)
    (content createdBy : String) (metadata : List (String × String))
    (embResult : Except String E) (now : Int) (hwf : WFMemDB db) :
    WFMemDB (storeMemory db mt content createdBy metadata embResult now).2 := by
  cases embResult with
  | error e => exact hwf
  | ok emb =>
    obtain ⟨hnd, hlt⟩ := hwf
    constructor
    · simp only [storeMemory, List.map_append, List.map_cons, List.map_nil]
      rw [List.nodup_append]
      refine ⟨hnd, List.nodup_singleton _, ?_⟩
      intro a ha hb
      simp only [List.mem_singleton] at hb
      subst hb
      obtain ⟨r, hr, hrid⟩ := List.mem_map.mp ha
      exact absurd hrid (Nat.ne_of_lt (hlt r hr))
    · intro r hr
      simp only [storeMemory, List.mem_append, List.mem_singleton] at hr
      rcases hr with hr | hr
      · exact Nat.lt_succ_of_lt (hlt r hr)
      · subst hr; exact Nat.lt_succ_self _

theorem wf_updateOrStoreMemory {E : Type} (db : MemDB E) (mt : MemoryType)
    (content createdBy : String) (metadata : List (String × String))
    (embResult : Except String E) (now : Int) (hwf : WFMemDB db) :
    WFMemDB (updateOrStoreMemory db mt content createdBy metadata embResult now).2 := by
  cases hq : assocGet metadata "query_id" with
  | none =>
    simp only [updateOrStoreMemory, hq]
    exact wf_storeMemory db mt content createdBy metadata embResult now hwf
  | some qid =>
    cases hf : findExistingId db mt createdBy qid with
    | none =>
      simp only [updateOrStoreMemory, hq, hf]
      exact wf_storeMemory db mt content createdBy metadata embResult now hwf
    | some id =>
      cases embResult with
      | error e => simp only [updateOrStoreMemory, hq, hf]; exact hwf
      | ok emb =>
        simp only [updateOrStoreMemory, hq, hf]
        obtain ⟨hnd, hlt⟩ := hwf
        have hids : (db.memories.map (fun r =>
            if r.id = id then
              { r with content := content, metadata := metadata, createdAt := now }
            else r)).map (fun r => r.id) = db.memories.map (fun r => r.id) := by
          rw [List.map_map]
          apply List.map_congr_left
          intro r _
          by_cases h : r.id = id <;> simp [h]
        constructor
        · simpa [hids] using hnd
        · intro r hr
          obtain ⟨r0, hr0, hr0eq⟩ := List.mem_map.mp hr
          have : r.id = r0.id := by
            subst hr0eq
            by_cases h : r0.id = id <;> simp [h]
          simpa [this] using hlt r0 hr0

theorem feedbackRowCount_storeMemory {E : Type} (db : MemDB E) (mt : MemoryType)
    (content createdBy : String) (metadata : List (String × String))
    (embResult : Except String E) (now : Int) (cb0 q0 : String)
    (hok : feedbackRowCount db cb0 q0 ≤ 1)
    (hguard : ∀ emb, embResult = .ok emb →
      supervisorFeedbackPred cb0 q0
        ⟨db.nextId, mt.asStr, content, metadata, createdBy, now⟩ = true →
      feedbackRowCount db cb0 q0 = 0) :
    feedbackRowCount (storeMemory db mt content createdBy metadata embResult now).2 cb0 q0 ≤ 1 := by
  cases embResult with
  | error e => exact hok
  | ok emb =>
    simp only [storeMemory, feedbackRowCount, List.countP_append] at *
    by_cases hp : supervisorFeedbackPred cb0 q0
        ⟨db.nextId, mt.asStr, content, metadata, createdBy, now⟩ = true
    · rw [hguard emb rfl hp]
      simp [List.countP_cons, hp]
    · have hp' : supervisorFeedbackPred cb0 q0
          ⟨db.nextId, mt.asStr, content, metadata, createdBy, now⟩ = false := by
        simpa using hp
      simpa [List.countP_cons, hp'] using hok

theorem feedbackRowCount_updateOrStore {E : Type} (db : MemDB E) (mt : MemoryType)
    (content createdBy : String) (metadata : List (String × String))
    (embResult : Except String E) (now : Int) (cb0 q0 : String)
    (hwf : WFMemDB db) (hok : feedbackRowCount db cb0 q0 ≤ 1) :
    feedbackRowCount
      (updateOrStoreMemory db mt content createdBy metadata embResult now).2 cb0 q0 ≤ 1 := by
  cases hq : assocGet metadata "query_id" with
  | none =>
    simp only [updateOrStoreMemory, hq]
    refine feedbackRowCount_storeMemory db mt content createdBy metadata embResult now cb0 q0 hok ?_
    intro emb _ hp
    exfalso
    simp only [supervisorFeedbackPred, Bool.and_eq_true, beq_iff_eq] at hp
    rw [hq] at hp
    exact Option.noConfusion hp.2
  | some qid =>
    cases hf : findExistingId db mt createdBy qid with
    | none =>
      simp only [updateOrStoreMemory, hq, hf]
      refine feedbackRowCount_storeMemory db mt content createdBy metadata embResult now cb0 q0 hok ?_
      intro emb _ hp
      simp only [supervisorFeedbackPred, Bool.and_eq_true, beq_iff_eq] at hp
      obtain ⟨⟨htype, hcb⟩, hqeq⟩ := hp
      rw [hq] at hqeq
      have hq0 : qid = q0 := Option.some.inj hqeq
      have hnone : db.memories.find? (fun r =>
          r.memoryType == mt.asStr && r.createdBy == createdBy &&
          assocGet r.metadata "query_id" == some qid) = none := by
        unfold findExistingId at hf
        exact Option.map_eq_none.mp hf
      have hall := List.find?_eq_none.mp hnone
      unfold feedbackRowCount
      rw [List.countP_eq_zero]
      intro r hr hp
      simp only [supervisorFeedbackPred, Bool.and_eq_true, beq_iff_eq] at hp
      obtain ⟨⟨hrt, hrc⟩, hrq⟩ := hp
      have := hall r hr
      simp only [Bool.and_eq_true, beq_iff_eq, not_and] at this
      exact this ⟨by rw [hrt, ← htype], by rw [hrc, ← hcb]⟩ (by rw [hrq, hq0])
    | some id =>
      cases embResult with
      | error e => simp only [updateOrStoreMemory, hq, hf]; exact hok
      | ok emb =>
        simp only [updateOrStoreMemory, hq, hf]
        simp only [feedbackRowCount] at hok ⊢
        calc (db.memories.map (fun r =>
                if r.id = id then
                  { r with content := content, metadata := metadata, createdAt := now }
                else r)).countP (supervisorFeedbackPred cb0 q0)
            ≤ db.memories.countP (supervisorFeedbackPred cb0 q0) := by
              rw [List.countP_map]
              apply List.countP_mono_left
              intro r hr hp
              simp only [Function.comp] at hp
              by_cases hid : r.id = id
              · obtain ⟨rf, hrf, hrfid⟩ : ∃ rf, db.memories.find? (fun r =>
                    r.memoryType == mt.asStr && r.createdBy == createdBy &&
                    assocGet r.metadata "query_id" == some qid) = some rf ∧ rf.id = id := by
                  unfold findExistingId at hf
                  obtain ⟨rf, h1, h2⟩ := Option.map_eq_some'.mp hf
                  exact ⟨rf, h1, h2⟩
                have hrmem := List.mem_of_find?_eq_some hrf
                have hrpred := List.find?_some hrf
                have hreq : r = rf :=
                  List.inj_on_of_nodup_map hwf.1 hr hrmem (by rw [hid, hrfid])
                rw [if_pos hid] at hp
                simp only [supervisorFeedbackPred, Bool.and_eq_true, beq_iff_eq] at hp ⊢
                obtain ⟨⟨htype, hcb⟩, hqeq⟩ := hp
                rw [hq] at hqeq
                have hq0 : qid = q0 := Option.some.inj hqeq
                simp only [Bool.and_eq_true, beq_iff_eq] at hrpred
                refine ⟨⟨htype, hcb⟩, ?_⟩
                rw [hreq, hrpred.2, hq0]
              · rwa [if_neg hid] at hp
          _ ≤ 1 := hok

/-- C4: `update_or_store_memory` overwrites in place when a row with the
same `(memory_type, created_by, metadata.query_id)` exists (same id
returned, same number of rows, rows rewritten by the in-place update map),
behaves as `store_memory` otherwise — in particular whenever the metadata
has no `query_id` — and, as a consequence, starting from a well-formed
store holding at most one Feedback row for `(supervisor, Q)`, any sequence
of `update_or_store_memory` calls leaves at most one such row. -/
theorem c4_update_or_store_supervisor_collapse :
    (∀ (E : Type) (db : MemDB E) (mt : MemoryType) (content cb : String)
        (md : List (String × String)) (emb : Except String E) (now : Int),
      (assocGet md "query_id" = none →
        updateOrStoreMemory db mt content cb md emb now =
          storeMemory db mt content cb md emb now) ∧
      (∀ qid, assocGet md "query_id" = some qid →
        findExistingId db mt cb qid = none →
        updateOrStoreMemory db mt content cb md emb now =
          storeMemory db mt content cb md emb now) ∧
      (∀ qid id embv, assocGet md "query_id" = some qid →
        findExistingId db mt cb qid = some id → emb = .ok embv →
        (updateOrStoreMemory db mt content cb md emb now).1 = .ok id ∧
        (updateOrStoreMemory db mt content cb md emb now).2.memories =
          db.memories.map (fun r =>
            if r.id = id then
              { r with content := content, metadata := md, createdAt := now }
            else r) ∧
        (updateOrStoreMemory db mt content cb md emb now).2.memories.length =
          db.memories.length ∧
        (updateOrStoreMemory db mt content cb md emb now).2.nextId = db.nextId)) ∧
    (∀ (E : Type) (calls : List (StoreCall E)) (db : MemDB E) (q : String),
      WFMemDB db → feedbackRowCount db "supervisor" q ≤ 1 →
      feedbackRowCount (applyUpdateOrStores calls db) "supervisor" q ≤ 1) := by
  constructor
  · intro E db mt content cb md emb now
    refine ⟨?_, ?_, ?_⟩
    · intro hq
      simp only [updateOrStoreMemory, hq]
    · intro qid hq hf
      simp only [updateOrStoreMemory, hq, hf]
    · intro qid id embv hq hf he
      subst he
      simp [updateOrStoreMemory, hq, hf]
  · intro E calls
    induction calls with
    | nil => intro db q _ hok; simpa [applyUpdateOrStores] using hok
    | cons c rest ih =>
      intro db q hwf hok
      have hstep := feedbackRowCount_updateOrStore db c.memoryType c.content c.createdBy
        c.metadata c.embResult c.now "supervisor" q hwf hok
      have hwf' := wf_updateOrStoreMemory db c.memoryType c.content c.createdBy
        c.metadata c.embResult c.now hwf
      have := ih (updateOrStoreMemory db c.memoryType c.content c.createdBy
        c.metadata c.embResult c.now).2 q hwf' hstep
      simpa [applyUpdateOrStores] using this

/-- Concrete first supervisor feedback call used by the C4 witness. -/
def c4FirstCall : StoreCall Unit :=
  ⟨.feedback, "stay focused", "supervisor", [("query_id", "q1")], .ok (), 1⟩

/-- Concrete second supervisor feedback call used by the C4 witness. -/
def c4SecondCall : StoreCall Unit :=
  ⟨.feedback, "now check sources", "supervisor", [("query_id", "q1")], .ok (), 2⟩

/-- The store after the first supervisor feedback call. -/
def c4DbAfterFirst : MemDB Unit :=
  (updateOrStoreMemory (emptyMemDB Unit) c4FirstCall.memoryType c4FirstCall.content
    c4FirstCall.createdBy c4FirstCall.metadata c4FirstCall.embResult c4FirstCall.now).2

/-- Witness for C4 at concrete inputs: an initial store without a
`query_id` inserts, a keyed store with no existing row inserts, the second
keyed call updates row 1 in place without growing the table, and after the
two supervisor calls exactly one Feedback row exists for the key. -/
theorem c4_update_or_store_supervisor_collapse_witness :
    (updateOrStoreMemory (emptyMemDB Unit) .feedback "f0" "supervisor" [] (.ok ()) 0 =
      storeMemory (emptyMemDB Unit) .feedback "f0" "supervisor" [] (.ok ()) 0) ∧
    (updateOrStoreMemory (emptyMemDB Unit) c4FirstCall.memoryType c4FirstCall.content
        c4FirstCall.createdBy c4FirstCall.metadata c4FirstCall.embResult c4FirstCall.now =
      storeMemory (emptyMemDB Unit) c4FirstCall.memoryType c4FirstCall.content
        c4FirstCall.createdBy c4FirstCall.metadata c4FirstCall.embResult c4FirstCall.now) ∧
    ((updateOrStoreMemory c4DbAfterFirst c4SecondCall.memoryType c4SecondCall.content
        c4SecondCall.createdBy c4SecondCall.metadata c4SecondCall.embResult c4SecondCall.now).1 =
      .ok 1) ∧
    ((updateOrStoreMemory c4DbAfterFirst c4SecondCall.memoryType c4SecondCall.content
        c4SecondCall.createdBy c4SecondCall.metadata c4SecondCall.embResult c4SecondCall.now).2.memories.length =
      c4DbAfterFirst.memories.length) ∧
    feedbackRowCount (applyUpdateOrStores [c4FirstCall, c4SecondCall] (emptyMemDB Unit))
      "supervisor" "q1" ≤ 1 := by
  have h := c4_update_or_store_supervisor_collapse
  refine ⟨(h.1 Unit (emptyMemDB Unit) .feedback "f0" "supervisor" [] (.ok ()) 0).1 rfl,
    (h.1 Unit (emptyMemDB Unit) c4FirstCall.memoryType c4FirstCall.content
      c4FirstCall.createdBy c4FirstCall.metadata c4FirstCall.embResult c4FirstCall.now).2.1
      "q1" rfl rfl,
    ?_, ?_, ?_⟩
  · exact ((h.1 Unit c4DbAfterFirst c4SecondCall.memoryType c4SecondCall.content
      c4SecondCall.createdBy c4SecondCall.metadata c4SecondCall.embResult c4SecondCall.now).2.2
      "q1" 1 () rfl rfl rfl).1
  · exact ((h.1 Unit c4DbAfterFirst c4SecondCall.memoryType c4SecondCall.content
      c4SecondCall.createdBy c4SecondCall.metadata c4SecondCall.embResult c4SecondCall.now).2.2
      "q1" 1 () rfl rfl rfl).2.2.1
  · refine h.2 Unit [c4FirstCall, c4SecondCall] (emptyMemDB Unit) "q1" ⟨?_, ?_⟩ ?_
    · simp [emptyMemDB]
    · intro r hr
      simp [emptyMemDB] at hr
    · decide

/-! ## C6 — the iterative tool-calling loop
(`query_internal_with_iterations`, src/ollama.rs lines 228-563)

What the model replies at each iteration, and whether that reply parses
into executable tool calls, are inputs: `replies iter` abstracts the
chat-request/parse/execute block of iteration `iter` into its observable
outcome — a final textual answer (no tool call detected), a list of
human-formatted tool-result records (tools executed), or a propagated
tool-execution error. The context accumulation and the iteration cap are
modelled verbatim. -/

inductive ModelReply where
  | finalText (t : String)
  | toolResults (rs : List String)
  | execError (e : String)

/-- `Vec::join` on strings. -/
def joinSep (sep : String) : List String → String
  | [] => ""
  | [x] => x
  | x :: xs => x ++ sep ++ joinSep sep xs

/-- Context update after iteration `iter` produced tool results
(src/ollama.rs lines 530-539). -/
def updateToolCtx (ctx : String) (iter : Nat) (rs : List String) : String :=
  let combined := joinSep "\n\n---\n\n" rs
  if ctx = "" then
    "Tool results from iteration " ++ toString iter ++ ":\n" ++ combined
  else
    ctx ++ "\n\n" ++ "Tool results from iteration " ++ toString iter ++ ":\n" ++ combined

/-- The two cap-return messages (src/ollama.rs lines 241-252). -/
def capReturn (maxIterations : Nat) (ctx : String) : String :=
  if ctx = "" then
    "Maximum tool iteration limit (" ++ toString maxIterations ++
      ") reached before gathering results."
  else
    "Based on the research gathered:\n\n" ++ ctx ++
      "\n\nNote: Reached maximum tool iteration limit. The above represents all gathered information."

/-- Observable outcome of one run of the loop: the returned value, the
number of loop iterations that issued a chat request, and — when the run
ended at the iteration cap — the accumulated tool-result context. -/
structure LoopOutcome where
  result : Except String String
  modelCalls : Nat
  cappedCtx : Option String

/-- The loop body of `query_internal_with_iterations`: `fuel` is the
number of iterations the cap still allows (the cap check `iteration >
max_iterations` sits before the chat request), `iter` the 1-based
iteration counter, `ctx` the accumulated `tool_results_context`. -/
def queryLoopGo (replies : Nat → ModelReply) (maxIterations : Nat) :
    Nat → Nat → String → LoopOutcome
  | 0, _, ctx => ⟨.ok (capReturn maxIterations ctx), 0, some ctx⟩
  | fuel + 1, iter, ctx =>
    match replies iter with
    | .finalText t => ⟨.ok t, 1, none⟩
    | .execError e => ⟨.error e, 1, none⟩
    | .toolResults rs =>
      let o := queryLoopGo replies maxIterations fuel (iter + 1) (updateToolCtx ctx iter rs)
      ⟨o.result, o.modelCalls + 1, o.cappedCtx⟩

/-- `query_internal_with_iterations`: start at iteration 1 with empty
context; the cap allows `max_iterations` chat requests. -/
def queryInternalWithIterations (replies : Nat → ModelReply)
    (maxIterations : Nat) : LoopOutcome :=
  queryLoopGo replies maxIterations maxIterations 1 ""

theorem queryLoopGo_spec (replies : Nat → ModelReply) (maxIterations : Nat) :
    ∀ (fuel iter : Nat) (ctx : String),
      (queryLoopGo replies maxIterations fuel iter ctx).modelCalls ≤ fuel ∧
      (∀ c, (queryLoopGo replies maxIterations fuel iter ctx).cappedCtx = some c →
        (queryLoopGo replies maxIterations fuel iter ctx).result =
          .ok (capReturn maxIterations c)) := by
  intro fuel
  induction fuel with
  | zero =>
    intro iter ctx
    refine ⟨Nat.le_refl 0, ?_⟩
    intro c hc
    simp only [queryLoopGo] at hc ⊢
    rw [Option.some.inj hc]
  | succ n ih =>
    intro iter ctx
    simp only [queryLoopGo]
    cases replies iter with
    | finalText t =>
      refine ⟨Nat.succ_le_succ (Nat.zero_le n), ?_⟩
      intro c hc
      exact Option.noConfusion hc
    | execError e =>
      refine ⟨Nat.succ_le_succ (Nat.zero_le n), ?_⟩
      intro c hc
      exact Option.noConfusion hc
    | toolResults rs =>
      obtain ⟨h1, h2⟩ := ih (iter + 1) (updateToolCtx ctx iter rs)
      exact ⟨Nat.succ_le_succ h1, h2⟩

/-- C6: the loop issues at most `max_tool_turns` chat requests and always
returns; when it ends at the iteration cap with a nonempty accumulated
tool-result context, the returned string is the cap message that embeds
the whole accumulated context together with the explicit cap notice. -/
theorem c6_tool_iteration_cap :
    ∀ (replies : Nat → ModelReply) (maxIterations : Nat),
      (queryInternalWithIterations replies maxIterations).modelCalls ≤ maxIterations ∧
      (∀ c, (queryInternalWithIterations replies maxIterations).cappedCtx = some c →
        c ≠ "" →
        (queryInternalWithIterations replies maxIterations).result =
          .ok ("Based on the research gathered:\n\n" ++ c ++
            "\n\nNote: Reached maximum tool iteration limit. The above represents all gathered information.")) := by
  intro replies maxIterations
  obtain ⟨h1, h2⟩ := queryLoopGo_spec replies maxIterations maxIterations 1 ""
  refine ⟨h1, ?_⟩
  intro c hc hne
  have := h2 c hc
  rwa [capReturn, if_neg hne] at this

/-- Concrete reply stream for the C6 witness: the model asks for tools at
every iteration. -/
def c6Replies : Nat → ModelReply := fun _ => .toolResults ["record A", "record B"]

/-- Witness for C6 with `max_tool_turns = 1`: one chat request happens,
then the cap returns the accumulated context inside the cap message. -/
theorem c6_tool_iteration_cap_witness :
    (queryInternalWithIterations c6Replies 1).modelCalls ≤ 1 ∧
    (queryInternalWithIterations c6Replies 1).result =
      .ok ("Based on the research gathered:\n\n" ++
        "Tool results from iteration 1:\nrecord A\n\n---\n\nrecord B" ++
        "\n\nNote: Reached maximum tool iteration limit. The above represents all gathered information.") := by
  obtain ⟨h1, h2⟩ := c6_tool_iteration_cap c6Replies 1
  exact ⟨h1, h2 "Tool results from iteration 1:\nrecord A\n\n---\n\nrecord B" rfl (by decide)⟩

/-! ## C7 — HTTP parameter resolution (src/tools.rs lines 555-598, 619-656)

`parse_value_by_type`'s fallible external parsers are oracles: `floatP`
models `value.parse::<f64>()` composed with `Number::from_f64` (returning
the display form of a finite float), `jsonArrP` models
`serde_json::from_str::<Vec<Value>>`, `jsonValP` models
`serde_json::from_str::<Value>` as used for the `object` type. -/

/-- `parse_value_by_type` (src/tools.rs lines 555-598). -/
def parseValueByType (floatP : String → Option String)
    (jsonArrP : String → Option (List JVal)) (jsonValP : String → Option JVal)
    (value : String) (paramType : String) : JVal :=
  match lowerStr paramType with
  | "number" =>
    match parseI64 value with
    | some n => .int n
    | none =>
      match floatP value with
      | some f => .float f
      | none => .str value
  | "boolean" | "bool" =>
    match lowerStr value with
    | "true" | "1" | "yes" | "y" => .bool true
    | "false" | "0" | "no" | "n" => .bool false
    | _ => .str value
  | "array" =>
    match jsonArrP value with
    | some xs => .arr xs
    | none =>
      .arr ((splitComma value.toList).map (fun piece => JVal.str (String.mk (trimWs piece))))
  | "object" =>
    match jsonValP value with
    | some v => v
    | none => .str value
  | _ => .str value

/-- A parameter declaration (src/tools.rs lines 95-103). -/
structure HttpParamDef where
  paramType : String
  required : Bool
  default : Option JVal

/-- Is a default the `${VAR}` interpolation form: a string value starting
with the dollar-brace and ending with the closing brace
(src/tools.rs line 624)? -/
def isInterpToken (s : String) : Bool :=
  ['$', '\x7b'].isPrefixOf s.toList && ['\x7d'].isSuffixOf s.toList

/-- The `VAR` inside `${VAR}` (Rust `&s[2..s.len()-1]`, ASCII model). -/
def interpKeyOf (s : String) : String :=
  String.mk ((s.toList.drop 2).dropLast)

/-- The `${VAR}` lookup chain (src/tools.rs lines 626-630): the API-key
map first, then the environment, else the literal placeholder. -/
def envSubstValue (apiKeys env : String → Option String) (key fallback : String) : String :=
  match apiKeys key with
  | some v => v
  | none =>
    match env key with
    | some v => v
    | none => fallback

/-- Resolution of one parameter (src/tools.rs lines 619-642): a declared
default always wins (with `${VAR}` interpolation then type coercion);
otherwise a caller value is coerced by declared type; otherwise a required
parameter is a hard error and an optional one is omitted. -/
def resolveParam (floatP : String → Option String)
    (jsonArrP : String → Option (List JVal)) (jsonValP : String → Option JVal)
    (apiKeys env : String → Option String) (key : String) (pd : HttpParamDef)
    (callerValue : Option String) : Except String (Option JVal) :=
  match pd.default with
  | some d =>
    match d with
    | .str s =>
      if isInterpToken s then
        .ok (some (parseValueByType floatP jsonArrP jsonValP
          (envSubstValue apiKeys env (interpKeyOf s) s) pd.paramType))
      else .ok (some d)
    | _ => .ok (some d)
  | none =>
    match callerValue with
    | some v => .ok (some (parseValueByType floatP jsonArrP jsonValP v pd.paramType))
    | none =>
      if pd.required then .error ("Missing required parameter: " ++ key)
      else .ok none

/-- The parameter loop of `execute_http_tool`: resolve each declared
parameter in turn, short-circuiting on a missing-required error and
skipping omitted optionals. -/
def resolveParams (floatP : String → Option String)
    (jsonArrP : String → Option (List JVal)) (jsonValP : String → Option JVal)
    (apiKeys env : String → Option String) :
    List (String × HttpParamDef) → (String → Option String) →
    Except String (List (String × JVal))
  | [], _ => .ok []
  | (key, pd) :: rest, caller =>
    match resolveParam floatP jsonArrP jsonValP apiKeys env key pd (caller key) with
    | .error e => .error e
    | .ok none => resolveParams floatP jsonArrP jsonValP apiKeys env rest caller
    | .ok (some v) =>
      match resolveParams floatP jsonArrP jsonValP apiKeys env rest caller with
      | .error e => .error e
      | .ok acc => .ok ((key, v) :: acc)

/-- Does a default take the `${VAR}` interpolation path? -/
def isInterpDefault : JVal → Bool
  | .str s => isInterpToken s
  | _ => false

/-- C7: the per-parameter resolution order — a declared default overrides
any caller value (interpolating `${VAR}` defaults through the API-key map,
then the environment, then leaving the literal); otherwise the caller
value is coerced by the declared type (number to int/float with string
fallback, boolean from the true/false token sets, array from JSON or
comma-splitting, object from JSON); otherwise a required parameter fails
with the missing-required-parameter error and an optional one is omitted,
the error short-circuiting the parameter loop. -/
theorem c7_parameter_resolution_order :
    ∀ (floatP : String → Option String) (jsonArrP : String → Option (List JVal))
      (jsonValP : String → Option JVal) (apiKeys env : String → Option String)
      (key : String) (pd : HttpParamDef) (caller : Option String),
      (∀ d, pd.default = some d →
        resolveParam floatP jsonArrP jsonValP apiKeys env key pd caller =
        resolveParam floatP jsonArrP jsonValP apiKeys env key pd none) ∧
      (∀ s, pd.default = some (.str s) → isInterpToken s = true →
        resolveParam floatP jsonArrP jsonValP apiKeys env key pd caller =
          .ok (some (parseValueByType floatP jsonArrP jsonValP
            (envSubstValue apiKeys env (interpKeyOf s) s) pd.paramType))) ∧
      (∀ d, pd.default = some d → isInterpDefault d = false →
        resolveParam floatP jsonArrP jsonValP apiKeys env key pd caller = .ok (some d)) ∧
      (∀ k fallback v, apiKeys k = some v → envSubstValue apiKeys env k fallback = v) ∧
      (∀ k fallback v, apiKeys k = none → env k = some v →
        envSubstValue apiKeys env k fallback = v) ∧
      (∀ k fallback, apiKeys k = none → env k = none →
        envSubstValue apiKeys env k fallback = fallback) ∧
      (∀ v, pd.default = none → caller = some v →
        resolveParam floatP jsonArrP jsonValP apiKeys env key pd caller =
          .ok (some (parseValueByType floatP jsonArrP jsonValP v pd.paramType))) ∧
      (pd.default = none → caller = none → pd.required = true →
        resolveParam floatP jsonArrP jsonValP apiKeys env key pd caller =
          .error ("Missing required parameter: " ++ key)) ∧
      (pd.default = none → caller = none → pd.required = false →
        resolveParam floatP jsonArrP jsonValP apiKeys env key pd caller = .ok none) ∧
      (∀ v n, parseI64 v = some n →
        parseValueByType floatP jsonArrP jsonValP v "number" = .int n) ∧
      (∀ v f, parseI64 v = none → floatP v = some f →
        parseValueByType floatP jsonArrP jsonValP v "number" = .float f) ∧
      (∀ v, parseI64 v = none → floatP v = none →
        parseValueByType floatP jsonArrP jsonValP v "number" = .str v) ∧
      (∀ v, (lowerStr v = "true" ∨ lowerStr v = "1" ∨ lowerStr v = "yes" ∨ lowerStr v = "y") →
        parseValueByType floatP jsonArrP jsonValP v "boolean" = .bool true) ∧
      (∀ v, (lowerStr v = "false" ∨ lowerStr v = "0" ∨ lowerStr v = "no" ∨ lowerStr v = "n") →
        parseValueByType floatP jsonArrP jsonValP v "boolean" = .bool false) ∧
      (∀ v xs, jsonArrP v = some xs →
        parseValueByType floatP jsonArrP jsonValP v "array" = .arr xs) ∧
      (∀ v, jsonArrP v = none →
        parseValueByType floatP jsonArrP jsonValP v "array" =
          .arr ((splitComma v.toList).map (fun piece => JVal.str (String.mk (trimWs piece))))) ∧
      (∀ v o, jsonValP v = some o →
        parseValueByType floatP jsonArrP jsonValP v "object" = o) ∧
      (∀ v e rest, resolveParam floatP jsonArrP jsonValP apiKeys env key pd (v key) = .error e →
        resolveParams floatP jsonArrP jsonValP apiKeys env ((key, pd) :: rest) v = .error e) := by
  intro floatP jsonArrP jsonValP apiKeys env key pd caller
  have hnum : ∀ v, parseValueByType floatP jsonArrP jsonValP v "number" =
      (match parseI64 v with
       | some n => JVal.int n
       | none =>
         match floatP v with
         | some f => JVal.float f
         | none => JVal.str v) := fun _ => rfl
  have hbool : ∀ v, parseValueByType floatP jsonArrP jsonValP v "boolean" =
      (match lowerStr v with
       | "true" | "1" | "yes" | "y" => JVal.bool true
       | "false" | "0" | "no" | "n" => JVal.bool false
       | _ => JVal.str v) := fun _ => rfl
  have harr : ∀ v, parseValueByType floatP jsonArrP jsonValP v "array" =
      (match jsonArrP v with
       | some xs => JVal.arr xs
       | none =>
         JVal.arr ((splitComma v.toList).map
           (fun piece => JVal.str (String.mk (trimWs piece))))) := fun _ => rfl
  have hobj : ∀ v, parseValueByType floatP jsonArrP jsonValP v "object" =
      (match jsonValP v with
       | some o => o
       | none => JVal.str v) := fun _ => rfl
  refine ⟨?_, ?_, ?_, ?_, ?_, ?_, ?_, ?_, ?_, ?_, ?_, ?_, ?_, ?_, ?_, ?_, ?_, ?_⟩
  · intro d hd
    simp only [resolveParam, hd]
  · intro s hd hi
    simp only [resolveParam, hd, hi, if_pos]
  · intro d hd hni
    cases d with
    | str s =>
      simp only [isInterpDefault] at hni
      simp only [resolveParam, hd, hni, Bool.false_eq_true, if_false]
    | int n => simp only [resolveParam, hd]
    | float r => simp only [resolveParam, hd]
    | bool b => simp only [resolveParam, hd]
    | arr xs => simp only [resolveParam, hd]
    | obj fields => simp only [resolveParam, hd]
    | null => simp only [resolveParam, hd]
  · intro k fallback v hk
    simp only [envSubstValue, hk]
  · intro k fallback v hk he
    simp only [envSubstValue, hk, he]
  · intro k fallback hk he
    simp only [envSubstValue, hk, he]
  · intro v hd hc
    simp only [resolveParam, hd, hc]
  · intro hd hc hreq
    simp only [resolveParam, hd, hc, hreq, if_pos]
  · intro hd hc hreq
    simp only [resolveParam, hd, hc, hreq, Bool.false_eq_true, if_false]
  · intro v n hp
    rw [hnum, hp]
  · intro v f hp hf
    rw [hnum, hp, hf]
  · intro v hp hf
    rw [hnum, hp, hf]
  · intro v hv
    rcases hv with hv | hv | hv | hv <;> (rw [hbool, hv]; rfl)
  · intro v hv
    rcases hv with hv | hv | hv | hv <;> (rw [hbool, hv]; rfl)
  · intro v xs hp
    rw [harr, hp]
  · intro v hp
    rw [harr, hp]
  · intro v o hp
    rw [hobj, hp]
  · intro v e rest hp
    simp only [resolveParams, hp]

/-- Oracles for the C7 witness: no float parse, no JSON parse. -/
def c7NoParse : String → Option String := fun _ => none

/-- API-key map for the C7 witness. -/
def c7ApiKeys : String → Option String :=
  fun k => if k = "API_KEY" then some "secret-value" else none

/-- Witness for C7 at concrete inputs: a pinned `${API_KEY}` default
overrides the caller value; a missing required parameter errors; `"42"`
coerces to the integer 42; `"YES"` coerces to `true`; `"a, b"` falls back
to the comma split. -/
theorem c7_parameter_resolution_order_witness :
    resolveParam c7NoParse (fun _ => none) (fun _ => none) c7ApiKeys (fun _ => none)
        "token" ⟨"string", true, some (.str "$\x7bAPI_KEY\x7d")⟩ (some "attacker") =
      .ok (some (.str "secret-value")) ∧
    resolveParam c7NoParse (fun _ => none) (fun _ => none) c7ApiKeys (fun _ => none)
        "city" ⟨"string", true, none⟩ none =
      .error "Missing required parameter: city" ∧
    parseValueByType c7NoParse (fun _ => none) (fun _ => none) "42" "number" = .int 42 ∧
    parseValueByType c7NoParse (fun _ => none) (fun _ => none) "YES" "boolean" = .bool true ∧
    parseValueByType c7NoParse (fun _ => none) (fun _ => none) "a, b" "array" =
      .arr [.str "a", .str "b"] := by
  have h := c7_parameter_resolution_order c7NoParse (fun _ => none) (fun _ => none)
    c7ApiKeys (fun _ => none) "token" ⟨"string", true, some (.str "$\x7bAPI_KEY\x7d")⟩
    (some "attacker")
  have h2 := c7_parameter_resolution_order c7NoParse (fun _ => none) (fun _ => none)
    c7ApiKeys (fun _ => none) "city" (⟨"string", true, none⟩ : HttpParamDef) none
  refine ⟨?_, h2.2.2.2.2.2.2.2.1 rfl rfl rfl, h.2.2.2.2.2.2.2.2.2.1 "42" 42 rfl,
    h.2.2.2.2.2.2.2.2.2.2.2.2.1 "YES" (Or.inr (Or.inr (Or.inl rfl))), ?_⟩
  · have hking := h.2.1 "$\x7bAPI_KEY\x7d" rfl rfl
    rw [hking]
    rfl
  · have harrw := h.2.2.2.2.2.2.2.2.2.2.2.2.2.2.2.1 "a, b" rfl
    rw [harrw]
    rfl

/-! ## C9 — one-shot gap injection
(src/research.rs lines 802-859 and 1034-1241)

One supervisor tick is abstracted into its observable inputs: whether
there was nothing to review yet (`noFindings`, with the skip applying only
on iteration 1), whether the analysis LM call succeeded, the completion
progress read from the latest Context memory, and `gapParse` — the joint
outcome of the gap-detection LM call, the NO_GAPS / empty check, the JSON
array extraction and parse, and the two take-limits (`none` when any stage
produces nothing). The latch (`gap_workers_requested`) and the dispatch
loop's `gap_workers_spawned` flag are modelled verbatim. -/

structure SubQuestion where
  question : String
  assignedWorker : String

structure SupTickObs where
  noFindings : Bool
  analysisOk : Bool
  completedCount : Nat
  midpointThreshold : Nat
  gapParse : Option (List SubQuestion)

structure SupState where
  iteration : Nat
  gapWorkersRequested : Bool

structure SupTickResult where
  state : SupState
  sent : Option (List SubQuestion)
  gapRequestMade : Bool

/-- One iteration of `supervisor_loop` (src/research.rs lines 1050-1241):
skip the first tick when there is nothing to review; on analysis success,
enter gap detection only when the latch is unset, the completion midpoint
is reached with a nonzero count, and more workers are allowed — setting
the latch (line 1162) before issuing the gap-detection request — and send
the parsed gap questions only when that parse produced a nonempty list. -/
def supervisorTick (initialWorkerCount maxWorkerCount : Nat) (st : SupState)
    (obs : SupTickObs) : SupTickResult :=
  let iter := st.iteration + 1
  if obs.noFindings && iter == 1 then
    ⟨⟨iter, st.gapWorkersRequested⟩, none, false⟩
  else if !obs.analysisOk then
    ⟨⟨iter, st.gapWorkersRequested⟩, none, false⟩
  else if !st.gapWorkersRequested && decide (obs.midpointThreshold ≤ obs.completedCount) &&
      decide (0 < obs.completedCount) && decide (initialWorkerCount < maxWorkerCount) then
    ⟨⟨iter, true⟩,
      (match obs.gapParse with
        | some qs => if qs.isEmpty then none else some qs
        | none => none),
      true⟩
  else ⟨⟨iter, st.gapWorkersRequested⟩, none, false⟩

/-- Run the supervisor over a list of ticks, counting sent gap messages
and gap-detection requests. -/
def supervisorRun (initialWorkerCount maxWorkerCount : Nat) :
    List SupTickObs → SupState → SupState × Nat × Nat
  | [], st => (st, 0, 0)
  | obs :: rest, st =>
    let r := supervisorTick initialWorkerCount maxWorkerCount st obs
    let rec' := supervisorRun initialWorkerCount maxWorkerCount rest r.state
    (rec'.1,
      rec'.2.1 + (if r.sent.isSome then 1 else 0),
      rec'.2.2 + (if r.gapRequestMade then 1 else 0))

theorem supervisorTick_cases (initialWorkerCount maxWorkerCount : Nat)
    (st : SupState) (obs : SupTickObs) :
    ((supervisorTick initialWorkerCount maxWorkerCount st obs).gapRequestMade = false ∧
      (supervisorTick initialWorkerCount maxWorkerCount st obs).sent = none ∧
      (supervisorTick initialWorkerCount maxWorkerCount st obs).state.gapWorkersRequested =
        st.gapWorkersRequested) ∨
    ((supervisorTick initialWorkerCount maxWorkerCount st obs).gapRequestMade = true ∧
      st.gapWorkersRequested = false ∧
      (supervisorTick initialWorkerCount maxWorkerCount st obs).state.gapWorkersRequested =
        true) := by
  unfold supervisorTick
  dsimp only
  by_cases h1 : (obs.noFindings && (st.iteration + 1 == 1)) = true
  · rw [if_pos h1]; left; exact ⟨rfl, rfl, rfl⟩
  · rw [if_neg h1]
    by_cases h2 : (!obs.analysisOk) = true
    · rw [if_pos h2]; left; exact ⟨rfl, rfl, rfl⟩
    · rw [if_neg h2]
      by_cases h3 : (!st.gapWorkersRequested &&
          decide (obs.midpointThreshold ≤ obs.completedCount) &&
          decide (0 < obs.completedCount) &&
          decide (initialWorkerCount < maxWorkerCount)) = true
      · rw [if_pos h3]
        right
        have hlatch : st.gapWorkersRequested = false := by
          simp only [Bool.and_eq_true, Bool.not_eq_true'] at h3
          exact h3.1.1.1
        exact ⟨rfl, hlatch, rfl⟩
      · rw [if_neg h3]; left; exact ⟨rfl, rfl, rfl⟩

theorem supervisorRun_counts (initialWorkerCount maxWorkerCount : Nat) :
    ∀ (obsList : List SupTickObs) (st : SupState),
      (supervisorRun initialWorkerCount maxWorkerCount obsList st).2.1 ≤
        (supervisorRun initialWorkerCount maxWorkerCount obsList st).2.2 ∧
      (st.gapWorkersRequested = false →
        (supervisorRun initialWorkerCount maxWorkerCount obsList st).2.2 ≤ 1) ∧
      (st.gapWorkersRequested = true →
        (supervisorRun initialWorkerCount maxWorkerCount obsList st).2.2 = 0) := by
  intro obsList
  induction obsList with
  | nil =>
    intro st
    exact ⟨Nat.le_refl 0, fun _ => Nat.zero_le 1, fun _ => rfl⟩
  | cons obs rest ih =>
    intro st
    obtain ⟨ihle, ihf, iht⟩ :=
      ih (supervisorTick initialWorkerCount maxWorkerCount st obs).state
    rcases supervisorTick_cases initialWorkerCount maxWorkerCount st obs with
      ⟨hreq, hsent, hlatch⟩ | ⟨hreq, hlatch0, hlatch1⟩
    · refine ⟨?_, ?_, ?_⟩
      · simpa [supervisorRun, hreq, hsent] using ihle
      · intro hf
        have := ihf (by rw [hlatch]; exact hf)
        simpa [supervisorRun, hreq, hsent] using this
      · intro ht
        have := iht (by rw [hlatch]; exact ht)
        simpa [supervisorRun, hreq, hsent] using this
    · have hrest := iht hlatch1
      refine ⟨?_, ?_, ?_⟩
      · simp only [supervisorRun, hreq, if_true]
        have hle : (if (supervisorTick initialWorkerCount maxWorkerCount st obs).sent.isSome
            then 1 else 0) ≤ 1 := by
          split <;> omega
        omega
      · intro _
        simp only [supervisorRun, hreq, if_true]
        omega
      · intro ht
        rw [hlatch0] at ht
        exact Bool.noConfusion ht

/-- Events seen by the dispatch loop of `execute_workers_with_refinement`
(the two arms of its select: a gap request, or a worker result). -/
inductive DispatchEvent where
  | gapRequest (qs : List SubQuestion)
  | workerResult

structure DispatchState where
  gapWorkersSpawned : Bool
  batchesSpawned : Nat

/-- One dispatch-loop step (src/research.rs lines 802-859): a gap request
spawns a batch of gap workers only when `gap_workers_spawned` is still
unset, setting it; later gap requests are ignored; worker results leave
the flag alone. -/
def dispatchStep (st : DispatchState) : DispatchEvent → DispatchState
  | .gapRequest _ =>
    if st.gapWorkersSpawned then st else ⟨true, st.batchesSpawned + 1⟩
  | .workerResult => st

/-- Run the dispatch loop from its initial state. -/
def dispatchRun (events : List DispatchEvent) : DispatchState :=
  events.foldl dispatchStep ⟨false, 0⟩

theorem dispatchFold_bound :
    ∀ (events : List DispatchEvent) (st : DispatchState),
      (events.foldl dispatchStep st).batchesSpawned +
        (if (events.foldl dispatchStep st).gapWorkersSpawned then 0 else 1) ≤
      st.batchesSpawned + (if st.gapWorkersSpawned then 0 else 1) := by
  intro events
  induction events with
  | nil => intro st; exact Nat.le_refl _
  | cons e rest ih =>
    intro st
    have step := ih (dispatchStep st e)
    refine Nat.le_trans (by simpa [List.foldl] using step) ?_
    cases e with
    | workerResult => exact Nat.le_refl _
    | gapRequest qs =>
      by_cases h : st.gapWorkersSpawned
      · simp [dispatchStep, h]
      · simp [dispatchStep, h]

/-- C9: per research session the supervisor sends at most one gap message
and makes at most one gap-detection request; the latch is unset before and
set by the tick that makes the request; a message is only sent by a tick
that makes the request; and the dispatch loop spawns at most one batch of
gap workers, ignoring gap requests once `gap_workers_spawned` is set. -/
theorem c9_gap_injection_once_per_session :
    (∀ (initialWorkerCount maxWorkerCount : Nat) (obsList : List SupTickObs),
      (supervisorRun initialWorkerCount maxWorkerCount obsList ⟨0, false⟩).2.1 ≤ 1 ∧
      (supervisorRun initialWorkerCount maxWorkerCount obsList ⟨0, false⟩).2.2 ≤ 1) ∧
    (∀ (initialWorkerCount maxWorkerCount : Nat) (st : SupState) (obs : SupTickObs),
      (supervisorTick initialWorkerCount maxWorkerCount st obs).gapRequestMade = true →
        st.gapWorkersRequested = false ∧
        (supervisorTick initialWorkerCount maxWorkerCount st obs).state.gapWorkersRequested =
          true) ∧
    (∀ (initialWorkerCount maxWorkerCount : Nat) (st : SupState) (obs : SupTickObs),
      (supervisorTick initialWorkerCount maxWorkerCount st obs).sent.isSome = true →
        (supervisorTick initialWorkerCount maxWorkerCount st obs).gapRequestMade = true) ∧
    (∀ events : List DispatchEvent, (dispatchRun events).batchesSpawned ≤ 1) ∧
    (∀ (st : DispatchState) (qs : List SubQuestion), st.gapWorkersSpawned = true →
      dispatchStep st (.gapRequest qs) = st) := by
  refine ⟨?_, ?_, ?_, ?_, ?_⟩
  · intro initialWorkerCount maxWorkerCount obsList
    obtain ⟨hle, hf, _⟩ := supervisorRun_counts initialWorkerCount maxWorkerCount obsList ⟨0, false⟩
    have h1 := hf rfl
    exact ⟨Nat.le_trans hle h1, h1⟩
  · intro initialWorkerCount maxWorkerCount st obs hreq
    rcases supervisorTick_cases initialWorkerCount maxWorkerCount st obs with
      ⟨hr, _, _⟩ | ⟨_, h0, h1⟩
    · rw [hreq] at hr; exact Bool.noConfusion hr
    · exact ⟨h0, h1⟩
  · intro initialWorkerCount maxWorkerCount st obs hsent
    rcases supervisorTick_cases initialWorkerCount maxWorkerCount st obs with
      ⟨_, hs, _⟩ | ⟨hr, _, _⟩
    · rw [hs] at hsent; exact Bool.noConfusion hsent
    · exact hr
  · intro events
    have h := dispatchFold_bound events ⟨false, 0⟩
    have : (dispatchRun events).batchesSpawned ≤
        (dispatchRun events).batchesSpawned +
          (if (dispatchRun events).gapWorkersSpawned then 0 else 1) := Nat.le_add_right _ _
    exact Nat.le_trans this (by simpa [dispatchRun] using h)
  · intro st qs h
    simp [dispatchStep, h]

/-- A tick whose observations trigger gap detection, for the C9 witness. -/
def c9TriggerObs : SupTickObs :=
  ⟨false, true, 2, 2, some [⟨"what about pricing?", "web_researcher"⟩]⟩

/-- Witness for C9 at concrete inputs: two trigger ticks still produce at
most one send and one request (the first tick latches), the trigger tick
reports the latch transition, and a second gap request is ignored by the
dispatch loop. -/
theorem c9_gap_injection_once_per_session_witness :
    (supervisorRun 4 8 [c9TriggerObs, c9TriggerObs] ⟨0, false⟩).2.1 ≤ 1 ∧
    (supervisorRun 4 8 [c9TriggerObs, c9TriggerObs] ⟨0, false⟩).2.2 ≤ 1 ∧
    ((supervisorTick 4 8 ⟨0, false⟩ c9TriggerObs).state.gapWorkersRequested = true) ∧
    ((supervisorTick 4 8 ⟨1, true⟩ c9TriggerObs).gapRequestMade = false) ∧
    (dispatchRun [.gapRequest [⟨"q", "w"⟩], .gapRequest [⟨"r", "w"⟩]]).batchesSpawned ≤ 1 ∧
    dispatchStep ⟨true, 1⟩ (.gapRequest [⟨"q", "w"⟩]) = ⟨true, 1⟩ := by
  have h := c9_gap_injection_once_per_session
  refine ⟨(h.1 4 8 [c9TriggerObs, c9TriggerObs]).1,
    (h.1 4 8 [c9TriggerObs, c9TriggerObs]).2,
    (h.2.1 4 8 ⟨0, false⟩ c9TriggerObs rfl).2,
    rfl,
    h.2.2.2.1 [.gapRequest [⟨"q", "w"⟩], .gapRequest [⟨"r", "w"⟩]],
    h.2.2.2.2 ⟨true, 1⟩ [⟨"q", "w"⟩] rfl⟩

/-! ## C8 — reference extraction (src/research.rs lines 1643-1743)

The three regexes of `extract_sources` are modelled as explicit scanners
over the character list, with the leftmost, non-overlapping semantics of
`Regex::captures_iter` for these concrete patterns:

* pattern 1, the bracket citation: literal prefix, then greedy
  whitespace, then one or more non-close characters captured, then the
  closing bracket;
* pattern 2, the same with parentheses;
* pattern 3, bare URLs: `http`, optional `s`, `://`, then one or more
  characters outside whitespace/`)`/`]`.

One deliberate simplification: on an input like the bracket tag holding
only whitespace, the regex backtracks into a whitespace-only capture,
which the code then trims to the empty string and drops; the scanner
rejects such a position outright. Both behaviours yield the same source
set, because the region the regex consumes there contains no later match
start. The scanners take a fuel argument so that they stay structurally
recursive and kernel-reducible; `scanWrapped_fuel_irrelevant` and
`scanUrls_fuel_irrelevant` prove any fuel of at least the text length
gives the same answer, so the canonical fuel `length + 1` loses nothing. -/

/-- Strip a literal prefix from a character list. -/
def stripPrefixL : List Char → List Char → Option (List Char)
  | [], s => some s
  | _ :: _, [] => none
  | p :: ps, c :: cs => if c = p then stripPrefixL ps cs else none

/-- Match one wrapped citation (patterns 1 and 2) at the head of `s`:
the literal `tag`, greedy whitespace, a nonempty capture of non-`closeC`
characters, then `closeC`; returns the capture and the rest of the text
after the match. -/
def matchWrapped (tag : List Char) (closeC : Char) (s : List Char) :
    Option (List Char × List Char) :=
  match stripPrefixL tag s with
  | none => none
  | some r =>
    let r2 := r.dropWhile wsChar
    let cap := r2.takeWhile (fun c => c != closeC)
    match r2.dropWhile (fun c => c != closeC) with
    | _ :: rest => if cap.isEmpty then none else some (cap, rest)
    | [] => none

/-- Characters admitted inside a bare URL by pattern 3. -/
def urlChar (c : Char) : Bool := !(wsChar c) && c != ')' && c != ']'

/-- Finish a URL match after the scheme: a nonempty greedy body of URL
characters; the whole match is scheme plus body. -/
def matchUrlFinish (pre : List Char) (r3 : List Char) :
    Option (List Char × List Char) :=
  let body := r3.takeWhile urlChar
  let rest := r3.dropWhile urlChar
  if body.isEmpty then none else some (pre ++ body, rest)

/-- The optional `s` of the scheme, greedy with backtracking: committed
exactly when the head is `s` and `://` follows it. -/
def urlSchemeSplit (r : List Char) : Option (List Char) :=
  match r with
  | c :: r2 =>
    if c = 's' && (stripPrefixL ("://".toList) r2).isSome then some r2 else none
  | [] => none

/-- Match one bare URL (pattern 3) at the head of `s`, with the regex's
greedy-then-backtrack treatment of the optional `s` after `http`. -/
def matchUrl (s : List Char) : Option (List Char × List Char) :=
  match stripPrefixL ("http".toList) s with
  | none => none
  | some r =>
    match urlSchemeSplit r with
    | some r2 =>
      match stripPrefixL ("://".toList) r2 with
      | some r3 => matchUrlFinish ("https://".toList) r3
      | none => none
    | none =>
      match stripPrefixL ("://".toList) r with
      | some r3 => matchUrlFinish ("http://".toList) r3
      | none => none

/-- Leftmost non-overlapping scan for one wrapped-citation pattern. -/
def scanWrapped (tag : List Char) (closeC : Char) : Nat → List Char → List (List Char)
  | 0, _ => []
  | _ + 1, [] => []
  | fuel + 1, c :: cs =>
    match matchWrapped tag closeC (c :: cs) with
    | some (cap, rest) => cap :: scanWrapped tag closeC fuel rest
    | none => scanWrapped tag closeC fuel cs

/-- Leftmost non-overlapping scan for bare URLs. -/
def scanUrls : Nat → List Char → List (List Char)
  | 0, _ => []
  | _ + 1, [] => []
  | fuel + 1, c :: cs =>
    match matchUrl (c :: cs) with
    | some (u, rest) => u :: scanUrls fuel rest
    | none => scanUrls fuel cs

theorem stripPrefixL_length :
    ∀ (p s r : List Char), stripPrefixL p s = some r → r.length + p.length = s.length := by
  intro p
  induction p with
  | nil =>
    intro s r h
    simp only [stripPrefixL] at h
    rw [← Option.some.inj h]
    simp
  | cons x xs ih =>
    intro s r h
    cases s with
    | nil => exact Option.noConfusion h
    | cons c cs =>
      simp only [stripPrefixL] at h
      by_cases hc : c = x
      · rw [if_pos hc] at h
        have := ih cs r h
        simp only [List.length_cons]
        omega
      · rw [if_neg hc] at h
        exact Option.noConfusion h

theorem matchWrapped_rest_lt (tag : List Char) (closeC : Char) (htag : tag ≠ []) :
    ∀ (s cap rest : List Char), matchWrapped tag closeC s = some (cap, rest) →
      rest.length < s.length := by
  intro s cap rest h
  unfold matchWrapped at h
  cases hstrip : stripPrefixL tag s with
  | none => rw [hstrip] at h; exact Option.noConfusion h
  | some r =>
    rw [hstrip] at h
    dsimp only at h
    have hr : r.length + tag.length = s.length := stripPrefixL_length tag s r hstrip
    have htaglen : 1 ≤ tag.length := by
      cases tag with
      | nil => exact absurd rfl htag
      | cons _ _ => simp
    have hr2 : (r.dropWhile wsChar).length ≤ r.length := (List.dropWhile_sublist wsChar).length_le
    cases hdw : (r.dropWhile wsChar).dropWhile (fun c => c != closeC) with
    | nil => rw [hdw] at h; exact Option.noConfusion h
    | cons c0 rest0 =>
      rw [hdw] at h
      dsimp only at h
      by_cases hcap : ((r.dropWhile wsChar).takeWhile (fun c => c != closeC)).isEmpty = true
      · rw [if_pos hcap] at h; exact Option.noConfusion h
      · rw [if_neg hcap] at h
        simp only [Option.some.injEq, Prod.mk.injEq] at h
        have hrest : rest = rest0 := h.2.symm
        have hdwlen : ((r.dropWhile wsChar).dropWhile (fun c => c != closeC)).length ≤
            (r.dropWhile wsChar).length :=
          (List.dropWhile_sublist (fun c => c != closeC)).length_le
        rw [hdw] at hdwlen
        simp only [List.length_cons] at hdwlen
        subst hrest
        omega

theorem matchUrlFinish_rest_lt (pre r3 u rest : List Char)
    (h : matchUrlFinish pre r3 = some (u, rest)) : rest.length < r3.length := by
  unfold matchUrlFinish at h
  by_cases hb : (r3.takeWhile urlChar).isEmpty = true
  · rw [if_pos hb] at h; exact Option.noConfusion h
  · rw [if_neg hb] at h
    simp only [Option.some.injEq, Prod.mk.injEq] at h
    have hrest : rest = r3.dropWhile urlChar := h.2.symm
    have hsplit := List.takeWhile_append_dropWhile urlChar r3
    have hlen : (r3.takeWhile urlChar).length + (r3.dropWhile urlChar).length = r3.length := by
      rw [← List.length_append, hsplit]
    have hbody : 1 ≤ (r3.takeWhile urlChar).length := by
      cases htw : r3.takeWhile urlChar with
      | nil => rw [htw] at hb; exact absurd rfl hb
      | cons _ _ => simp
    rw [hrest]
    omega

theorem urlSchemeSplit_length :
    ∀ (r r2 : List Char), urlSchemeSplit r = some r2 → r2.length + 1 = r.length := by
  intro r r2 h
  cases r with
  | nil => exact Option.noConfusion h
  | cons c cs =>
    simp only [urlSchemeSplit] at h
    by_cases hc : (c = 's' && (stripPrefixL ("://".toList) cs).isSome) = true
    · rw [if_pos hc] at h
      rw [← Option.some.inj h]
      simp
    · rw [if_neg hc] at h
      exact Option.noConfusion h

theorem matchUrl_rest_lt :
    ∀ (s u rest : List Char), matchUrl s = some (u, rest) → rest.length < s.length := by
  intro s u rest h
  unfold matchUrl at h
  cases hstrip : stripPrefixL ("http".toList) s with
  | none => rw [hstrip] at h; exact Option.noConfusion h
  | some r =>
    rw [hstrip] at h
    dsimp only at h
    have hr : r.length + 4 = s.length := by
      have := stripPrefixL_length ("http".toList) s r hstrip
      simpa using this
    cases hws : urlSchemeSplit r with
    | some r2 =>
      rw [hws] at h
      dsimp only at h
      have h2 : r2.length + 1 = r.length := urlSchemeSplit_length r r2 hws
      cases hs2 : stripPrefixL ("://".toList) r2 with
      | some r3 =>
        rw [hs2] at h
        have h3 : r3.length + 3 = r2.length := by
          have := stripPrefixL_length ("://".toList) r2 r3 hs2
          simpa using this
        have := matchUrlFinish_rest_lt _ _ _ _ h
        omega
      | none => rw [hs2] at h; exact Option.noConfusion h
    | none =>
      rw [hws] at h
      dsimp only at h
      cases hs3 : stripPrefixL ("://".toList) r with
      | some r3 =>
        rw [hs3] at h
        have h3 : r3.length + 3 = r.length := by
          have := stripPrefixL_length ("://".toList) r r3 hs3
          simpa using this
        have := matchUrlFinish_rest_lt _ _ _ _ h
        omega
      | none => rw [hs3] at h; exact Option.noConfusion h

theorem scanWrapped_fuel_irrelevant (tag : List Char) (closeC : Char) (htag : tag ≠ []) :
    ∀ (f1 f2 : Nat) (s : List Char), s.length ≤ f1 → s.length ≤ f2 →
      scanWrapped tag closeC f1 s = scanWrapped tag closeC f2 s := by
  intro f1
  induction f1 with
  | zero =>
    intro f2 s h1 _
    have hs : s = [] := List.eq_nil_of_length_eq_zero (Nat.le_zero.mp h1)
    subst hs
    cases f2 <;> rfl
  | succ n ih =>
    intro f2 s h1 h2
    cases s with
    | nil => cases f2 <;> rfl
    | cons c cs =>
      cases f2 with
      | zero => simp at h2
      | succ m =>
        simp only [scanWrapped]
        cases hm : matchWrapped tag closeC (c :: cs) with
        | some pr =>
          obtain ⟨cap, rest⟩ := pr
          have hlt := matchWrapped_rest_lt tag closeC htag (c :: cs) cap rest hm
          simp only [List.length_cons] at h1 h2 hlt
          dsimp only
          rw [ih m rest (by omega) (by omega)]
        | none =>
          simp only [List.length_cons] at h1 h2
          exact ih m cs (by omega) (by omega)

theorem scanUrls_fuel_irrelevant :
    ∀ (f1 f2 : Nat) (s : List Char), s.length ≤ f1 → s.length ≤ f2 →
      scanUrls f1 s = scanUrls f2 s := by
  intro f1
  induction f1 with
  | zero =>
    intro f2 s h1 _
    have hs : s = [] := List.eq_nil_of_length_eq_zero (Nat.le_zero.mp h1)
    subst hs
    cases f2 <;> rfl
  | succ n ih =>
    intro f2 s h1 h2
    cases s with
    | nil => cases f2 <;> rfl
    | cons c cs =>
      cases f2 with
      | zero => simp at h2
      | succ m =>
        simp only [scanUrls]
        cases hm : matchUrl (c :: cs) with
        | some pr =>
          obtain ⟨u, rest⟩ := pr
          have hlt := matchUrl_rest_lt (c :: cs) u rest hm
          simp only [List.length_cons] at h1 h2 hlt
          dsimp only
          rw [ih m rest (by omega) (by omega)]
        | none =>
          simp only [List.length_cons] at h1 h2
          exact ih m cs (by omega) (by omega)

/-- Rust `Ord` for `String`: lexicographic comparison, here on the
codepoint sequence (UTF-8 byte order coincides with codepoint order). -/
def lexLt : List Char → List Char → Bool
  | [], [] => false
  | [], _ :: _ => true
  | _ :: _, [] => false
  | a :: as, b :: bs => if a < b then true else if b < a then false else lexLt as bs

theorem lexLt_irrefl : ∀ l, lexLt l l = false := by
  intro l
  induction l with
  | nil => rfl
  | cons c cs ih => simp [lexLt, lt_irrefl, ih]

theorem lexLt_trans :
    ∀ a b c, lexLt a b = true → lexLt b c = true → lexLt a c = true := by
  intro a
  induction a with
  | nil =>
    intro b c hab hbc
    cases c with
    | nil =>
      cases b with
      | nil => exact absurd hab (by simp [lexLt])
      | cons y ys => exact absurd hbc (by simp [lexLt])
    | cons z zs => simp [lexLt]
  | cons x xs ih =>
    intro b c hab hbc
    cases b with
    | nil => exact absurd hab (by simp [lexLt])
    | cons y ys =>
      cases c with
      | nil => exact absurd hbc (by simp [lexLt])
      | cons z zs =>
        simp only [lexLt] at hab hbc ⊢
        rcases lt_trichotomy x y with hxy | rfl | hxy
        · rcases lt_trichotomy y z with hyz | rfl | hyz
          · rw [if_pos (lt_trans hxy hyz)]
          · rw [if_pos hxy]
          · rw [if_neg (asymm hyz), if_pos hyz] at hbc
            exact Bool.noConfusion hbc
        · rw [if_neg (lt_irrefl x), if_neg (lt_irrefl x)] at hab
          rcases lt_trichotomy x z with hxz | rfl | hxz
          · rw [if_pos hxz]
          · rw [if_neg (lt_irrefl x), if_neg (lt_irrefl x)] at hbc ⊢
            exact ih ys zs hab hbc
          · rw [if_neg (asymm hxz), if_pos hxz] at hbc
            exact Bool.noConfusion hbc
        · rw [if_neg (asymm hxy), if_pos hxy] at hab
          exact Bool.noConfusion hab

theorem lexLt_total_eq :
    ∀ a b, lexLt a b = false → lexLt b a = false → a = b := by
  intro a
  induction a with
  | nil =>
    intro b h1 _
    cases b with
    | nil => rfl
    | cons y ys => exact absurd h1 (by simp [lexLt])
  | cons x xs ih =>
    intro b h1 h2
    cases b with
    | nil => exact absurd h2 (by simp [lexLt])
    | cons y ys =>
      simp only [lexLt] at h1 h2
      rcases lt_trichotomy x y with hxy | rfl | hxy
      · rw [if_pos hxy] at h1; exact Bool.noConfusion h1
      · rw [if_neg (lt_irrefl x), if_neg (lt_irrefl x)] at h1
        rw [if_neg (lt_irrefl x), if_neg (lt_irrefl x)] at h2
        rw [ih ys h1 h2]
      · rw [if_pos hxy] at h2; exact Bool.noConfusion h2

/-- `BTreeSet<String>::insert` on the sorted duplicate-free list model. -/
def setInsert (x : List Char) : List (List Char) → List (List Char)
  | [] => [x]
  | y :: ys =>
    if lexLt x y then x :: y :: ys
    else if x = y then y :: ys
    else y :: setInsert x ys

theorem mem_setInsert :
    ∀ (x z : List Char) (l : List (List Char)), z ∈ setInsert x l ↔ z = x ∨ z ∈ l := by
  intro x z l
  induction l with
  | nil => simp [setInsert]
  | cons y ys ih =>
    unfold setInsert
    by_cases h1 : lexLt x y = true
    · rw [if_pos h1]
      simp only [List.mem_cons]
    · rw [if_neg h1]
      by_cases h2 : x = y
      · rw [if_pos h2]
        subst h2
        simp only [List.mem_cons]
        tauto
      · rw [if_neg h2]
        simp only [List.mem_cons, ih]
        tauto

theorem setInsert_pairwise :
    ∀ (x : List Char) (l : List (List Char)),
      l.Pairwise (fun a b => lexLt a b = true) →
      (setInsert x l).Pairwise (fun a b => lexLt a b = true) := by
  intro x l
  induction l with
  | nil =>
    intro _
    simp [setInsert]
  | cons y ys ih =>
    intro h
    obtain ⟨hy, hys⟩ := List.pairwise_cons.mp h
    unfold setInsert
    by_cases h1 : lexLt x y = true
    · rw [if_pos h1]
      refine List.pairwise_cons.mpr ⟨?_, h⟩
      intro z hz
      rcases List.mem_cons.mp hz with rfl | hz'
      · exact h1
      · exact lexLt_trans x y z h1 (hy z hz')
    · rw [if_neg h1]
      by_cases h2 : x = y
      · rw [if_pos h2]; exact h
      · rw [if_neg h2]
        have hyx : lexLt y x = true := by
          by_cases h3 : lexLt y x = true
          · exact h3
          · exact absurd (lexLt_total_eq x y (by simpa using h1) (by simpa using h3)) h2
        refine List.pairwise_cons.mpr ⟨?_, ih hys⟩
        intro z hz
        rcases (mem_setInsert x z ys).mp hz with rfl | hz'
        · exact hyx
        · exact hy z hz'

theorem foldl_preserves_prop {α β : Type} (P : β → Prop) (f : β → α → β)
    (hf : ∀ b a, P b → P (f b a)) :
    ∀ (l : List α) (b : β), P b → P (l.foldl f b) := by
  intro l
  induction l with
  | nil => intro b hb; exact hb
  | cons x xs ih => intro b hb; exact ih (f b x) (hf b x hb)

/-- Insert one regex capture into the source set after trimming, dropping
captures that trim to nothing (src/research.rs lines 1710-1713,
1722-1725). -/
def insertCleaned (acc : List (List Char)) (cap : List Char) : List (List Char) :=
  if (trimWs cap).isEmpty then acc else setInsert (trimWs cap) acc

/-- `trim_end_matches` with `.`, `,`, `;` (src/research.rs line 1737). -/
def trimEndPunct (u : List Char) : List Char :=
  (u.reverse.dropWhile (fun c => c = '.' || c = ',' || c = ';')).reverse

/-- The containment check of pattern 3 (src/research.rs lines 1735-1736):
skip a bare URL already present in a wrapped citation of the exact
one-space form. -/
def wrappedContains (text u : List Char) : Bool :=
  decide (("[Source: ".toList ++ u ++ [']']) <:+: text) ||
  decide (("(Source: ".toList ++ u ++ [')']) <:+: text)

/-- `extract_sources` (src/research.rs lines 1703-1743): run the three
patterns over the text and collect into the sorted duplicate-free set. -/
def extractSources (text : String) : List (List Char) :=
  let cs := text.toList
  let fuel := cs.length + 1
  let acc1 := (scanWrapped ("[Source:".toList) ']' fuel cs).foldl insertCleaned []
  let acc2 := (scanWrapped ("(Source:".toList) ')' fuel cs).foldl insertCleaned acc1
  (scanUrls fuel cs).foldl
    (fun acc u => if wrappedContains cs u then acc else setInsert (trimEndPunct u) acc) acc2

/-- The Web Sources test of `add_sources_section`
(src/research.rs line 1669). -/
def isWebSource (u : List Char) : Bool :=
  "http://".toList.isPrefixOf u || "https://".toList.isPrefixOf u

/-- The numbered Web Sources items (src/research.rs lines 1680-1683). -/
def renderUrlItems : Nat → List (List Char) → String
  | _, [] => ""
  | n, u :: us => toString n ++ ". <" ++ String.mk u ++ ">\n" ++ renderUrlItems (n + 1) us

/-- The numbered Additional Sources items
(src/research.rs lines 1693-1696). -/
def renderOtherItems : Nat → List (List Char) → String
  | _, [] => ""
  | n, u :: us => toString n ++ ". " ++ String.mk u ++ "\n" ++ renderOtherItems (n + 1) us

/-- `add_sources_section` (src/research.rs lines 1643-1700): extract the
sources from the text, return the text unchanged when there are none,
else append the separator and the References section with Web Sources
first (numbered from 1) and Additional Sources after (numbering
continuing). -/
def addSourcesSection (text : String) : String :=
  let sources := extractSources text
  if sources.isEmpty then text
  else
    let output0 := if ['\n', '\n'].isSuffixOf text.toList then text else text ++ "\n\n"
    let urls := sources.filter isWebSource
    let others := sources.filter (fun s => !isWebSource s)
    output0 ++ "---\n\n" ++ "## References\n\n" ++
      (if urls.isEmpty then "" else
        "### Web Sources\n\n" ++
        "The following websites and online resources were consulted:\n\n" ++
        renderUrlItems 1 urls) ++
      (if others.isEmpty then "" else
        (if urls.isEmpty then "" else "\n") ++
        "### Additional Sources\n\n" ++ "Other sources referenced:\n\n" ++
        renderOtherItems (urls.length + 1) others)

theorem extractSources_pairwise (text : String) :
    (extractSources text).Pairwise (fun a b => lexLt a b = true) := by
  unfold extractSources
  dsimp only
  have hstep : ∀ (acc : List (List Char)) (cap : List Char),
      acc.Pairwise (fun a b => lexLt a b = true) →
      (insertCleaned acc cap).Pairwise (fun a b => lexLt a b = true) := by
    intro acc cap hp
    unfold insertCleaned
    by_cases h : (trimWs cap).isEmpty = true
    · rw [if_pos h]; exact hp
    · rw [if_neg h]; exact setInsert_pairwise _ acc hp
  have hstepU : ∀ (acc : List (List Char)) (u : List Char),
      acc.Pairwise (fun a b => lexLt a b = true) →
      ((fun acc u => if wrappedContains text.toList u then acc
        else setInsert (trimEndPunct u) acc) acc u).Pairwise
          (fun a b => lexLt a b = true) := by
    intro acc u hp
    dsimp only
    by_cases h : wrappedContains text.toList u = true
    · rw [if_pos h]; exact hp
    · rw [if_neg h]; exact setInsert_pairwise _ acc hp
  exact foldl_preserves_prop _ _ hstepU _ _
    (foldl_preserves_prop _ _ hstep _ _
      (foldl_preserves_prop _ _ hstep _ _ List.Pairwise.nil))

theorem extractSources_nodup (text : String) : (extractSources text).Nodup := by
  refine (extractSources_pairwise text).imp ?_
  intro a b hab heq
  subst heq
  rw [lexLt_irrefl] at hab
  exact Bool.noConfusion hab

/-- C8: the References section is computed from the document before
anything is appended: `extract_sources` returns a lexicographically
sorted, duplicate-free set (with a bare URL skipped when the text holds
the same URL in a wrapped citation); the appended section lists exactly
that set, split into the Web Sources (http/https prefixes, numbered from
one) followed by the Additional Sources (the rest, numbering continuing),
together a permutation of the whole set; a document without sources is
returned unchanged. -/
theorem c8_reference_extraction :
    ∀ text : String,
      (extractSources text).Pairwise (fun a b => lexLt a b = true) ∧
      (extractSources text).Nodup ∧
      List.Perm ((extractSources text).filter isWebSource ++
        (extractSources text).filter (fun s => !isWebSource s)) (extractSources text) ∧
      (extractSources text = [] → addSourcesSection text = text) ∧
      (extractSources text ≠ [] →
        addSourcesSection text =
          (if ['\n', '\n'].isSuffixOf text.toList then text else text ++ "\n\n") ++
            "---\n\n" ++ "## References\n\n" ++
            (if ((extractSources text).filter isWebSource).isEmpty then "" else
              "### Web Sources\n\n" ++
              "The following websites and online resources were consulted:\n\n" ++
              renderUrlItems 1 ((extractSources text).filter isWebSource)) ++
            (if ((extractSources text).filter (fun s => !isWebSource s)).isEmpty then "" else
              (if ((extractSources text).filter isWebSource).isEmpty then "" else "\n") ++
              "### Additional Sources\n\n" ++ "Other sources referenced:\n\n" ++
              renderOtherItems (((extractSources text).filter isWebSource).length + 1)
                ((extractSources text).filter (fun s => !isWebSource s)))) := by
  intro text
  refine ⟨extractSources_pairwise text, extractSources_nodup text,
    List.filter_append_perm _ _, ?_, ?_⟩
  · intro h
    unfold addSourcesSection
    dsimp only
    rw [if_pos (List.isEmpty_iff.mpr h)]
  · intro h
    unfold addSourcesSection
    dsimp only
    rw [if_neg (fun hh => h (List.isEmpty_iff.mp hh))]

/-- The concrete document of the C8 witness: one wrapped non-URL source,
one wrapped URL, and one bare URL with trailing punctuation. -/
def c8Doc : String :=
  "See [Source: Alpha Report] and https://b.example. Also [Source: https://a.example] here."

set_option maxRecDepth 100000 in
/-- Witness for C8: the extracted set is sorted and duplicate-free, the
bare occurrence of the wrapped URL is not added twice, the trailing
period is stripped, and the appended section lists the web sources first
and the other source after, numbered continuously. -/
theorem c8_reference_extraction_witness :
    extractSources c8Doc =
      ["Alpha Report".toList, "https://a.example".toList, "https://b.example".toList] ∧
    addSourcesSection c8Doc =
      c8Doc ++ "\n\n" ++ "---\n\n" ++ "## References\n\n" ++
        ("### Web Sources\n\n" ++
          "The following websites and online resources were consulted:\n\n" ++
          "1. <https://a.example>\n" ++ "2. <https://b.example>\n") ++
        ("\n" ++ "### Additional Sources\n\n" ++ "Other sources referenced:\n\n" ++
          "3. Alpha Report\n") := by
  have hset : extractSources c8Doc =
      ["Alpha Report".toList, "https://a.example".toList, "https://b.example".toList] := by
    decide
  have hne : extractSources c8Doc ≠ [] := by
    rw [hset]; intro hc; exact List.noConfusion hc
  have heq := (c8_reference_extraction c8Doc).2.2.2.2 hne
  refine ⟨hset, ?_⟩
  rw [heq, hset]
  decide
